import Mathlib

/-!
Shallow embedding of the PSMoveService controller device manager
(`src/psmoveservice/ControllerManager.cpp`), covering the slot table,
the hot-plug reconciliation algorithm (`update_connected_controllers`),
the polling pass (`poll_open_controllers`), the data-frame publisher
(`publish_controller_data_frame`) and the tick scheduler (`update`).

Machine ints that never overflow in the modelled executions are rendered
as `Nat`/`Int`; float-valued pose components are carried as opaque `Int`
tokens (they are only ever copied, never computed with).  The controller
session internals (`PSMoveController` open/close/read/match) live in a
header/translation unit that is not part of the analysed sources, so
those operations are modelled from the spec (section 4.1); each such
definition is marked in its doc comment.  Everything else is translated
directly from `ControllerManager.cpp`.
-/

/-- Opaque, comparable token identifying a physical device instance
(the device path used by `matchesDeviceEnumerator`). -/
abbrev DeviceIdentity := Nat

/-- Raw button states of the controller HID report.  Modelled from the spec:
the `Button_*` enum lives in the missing `PSMoveController.h`; the source
(`SET_BUTTON_BIT`) distinguishes `Button_DOWN` and `Button_PRESSED` from the
remaining states, and the spec says the two raw states "down"/"held" collapse
to one published bit each. -/
inductive ButtonState where
  | Button_UP
  | Button_PRESSED
  | Button_DOWN
  | Button_RELEASED
deriving DecidableEq, Repr

/-- Last decoded controller input state (`PSMoveState`).  Modelled from the
spec: the struct lives in the missing `PSMoveController.h`; the fields are
exactly the ones read by `publish_controller_data_frame`. -/
structure PSMoveState where
  Triangle : ButtonState
  Circle : ButtonState
  Cross : ButtonState
  Square : ButtonState
  Select : ButtonState
  Start : ButtonState
  PS : ButtonState
  Move : ButtonState
  Trigger : Nat
deriving DecidableEq, Repr

/-- All-buttons-up controller state. -/
def PSMoveState.zero : PSMoveState :=
  { Triangle := .Button_UP, Circle := .Button_UP, Cross := .Button_UP
    Square := .Button_UP, Select := .Button_UP, Start := .Button_UP
    PS := .Button_UP, Move := .Button_UP, Trigger := 0 }

/-- Controller pose (`psmovePosef`): quaternion and position.  The float
components are opaque `Int` tokens; the manager only copies them into frames. -/
structure psmovePosef where
  qw : Int
  qx : Int
  qy : Int
  qz : Int
  px : Int
  py : Int
  pz : Int
deriving DecidableEq, Repr

/-- Identity pose token. -/
def psmovePosef.zero : psmovePosef :=
  { qw := 1, qx := 0, qy := 0, qz := 0, px := 0, py := 0, pz := 0 }

/-- One controller session object (`PSMoveController`).  Modelled from the
spec (section 3 / 4.1): the class body is in the missing
`PSMoveController.h`/`.cpp`.  `tag` stands for the C++ object identity (the
allocation index of the pool object behind the `shared_ptr`); it is never
mutated by any operation, which is what lets us speak about "the same session
object" across a reconciliation pass.  `psmove_id` is the positional id
(`slot_id`), `isOpen` the open/closed state, and `devicePath` the bound
device identity (`Some` when open). -/
structure PSMoveController where
  tag : Nat
  psmove_id : Nat
  isOpen : Bool
  devicePath : Option DeviceIdentity
  pose : psmovePosef
  state : PSMoveState
deriving DecidableEq, Repr

namespace PSMoveController

/-- `getIsOpen`. Modelled from the spec (section 4.1). -/
def getIsOpen (c : PSMoveController) : Bool := c.isOpen

/-- `setPSMoveID`. Modelled from the spec (section 3): reassigns the
positional id and nothing else. -/
def setPSMoveID (c : PSMoveController) (id : Nat) : PSMoveController :=
  { c with psmove_id := id }

/-- `close()`. Modelled from the spec (section 4.1): releases the device,
sets `state=Closed, bound_identity=None`; idempotent. -/
def close (c : PSMoveController) : PSMoveController :=
  { c with isOpen := false, devicePath := none }

/-- `open(enumerator)`. Modelled from the spec (section 4.1): attempts to
bind a closed session to the enumerated device; the transport outcome is
supplied by the caller as `ok`.  On success the session becomes Open and
bound; on failure it is left unchanged (Closed).  Returns the session plus
the boolean result the source tests. -/
def openController (c : PSMoveController) (e : DeviceIdentity) (ok : Bool) :
    PSMoveController × Bool :=
  if ok then ({ c with isOpen := true, devicePath := some e }, true)
  else (c, false)

/-- `matchesDeviceEnumerator`. Modelled from the spec (section 6): compares
the session's bound device path against the enumerated identity. -/
def matchesDeviceEnumerator (c : PSMoveController) (e : DeviceIdentity) : Bool :=
  decide (c.devicePath = some e)

end PSMoveController

/-- Result of `PSMoveController::readDataIn` (three-way enum from the
source's `switch`).  The decoded payload accompanying new data is carried on
the `SuccessNewData` arm, as the spec's `ReadOutcome ∪ decoded payload`. -/
inductive ReadDataResult where
  | SuccessNoData
  | SuccessNewData (newState : PSMoveState) (newPose : psmovePosef)
  | Failure
deriving DecidableEq, Repr

/-- `readDataIn`, applied to the session.  Modelled from the spec
(section 4.1): on `NewData` the session's last decoded state is replaced; on
`NoData` and `Failure` the session is unchanged (the *caller* closes it on
failure).  The transport outcome for a given physical device is supplied by
the oracle `readFn`, keyed by the session's object tag. -/
def PSMoveController.readDataIn (c : PSMoveController)
    (readFn : Nat → ReadDataResult) : PSMoveController :=
  match readFn c.tag with
  | .SuccessNewData st ps => { c with state := st, pose := ps }
  | _ => c

/-- Bit index of TRIANGLE in the published bitmask.  Modelled from the spec:
the `PSMoveProtocol::ControllerDataFrame` button enum is generated from the
missing `.proto` file; each logical button maps to one distinct bit. -/
def TRIANGLE : Nat := 0
/-- Bit index of CIRCLE (modelled from the spec, see `TRIANGLE`). -/
def CIRCLE : Nat := 1
/-- Bit index of CROSS (modelled from the spec, see `TRIANGLE`). -/
def CROSS : Nat := 2
/-- Bit index of SQUARE (modelled from the spec, see `TRIANGLE`). -/
def SQUARE : Nat := 3
/-- Bit index of SELECT (modelled from the spec, see `TRIANGLE`). -/
def SELECT : Nat := 4
/-- Bit index of START (modelled from the spec, see `TRIANGLE`). -/
def START : Nat := 5
/-- Bit index of PS (modelled from the spec, see `TRIANGLE`). -/
def PS : Nat := 6
/-- Bit index of MOVE (modelled from the spec, see `TRIANGLE`). -/
def MOVE : Nat := 7

/-- The `SET_BUTTON_BIT` macro (ControllerManager.cpp lines 18-19):
`bitmask |= (state == Button_DOWN || state == Button_PRESSED) ? (1 << bit) : 0`. -/
def SET_BUTTON_BIT (bitmask : Nat) (bit_index : Nat) (button_state : ButtonState) : Nat :=
  bitmask ||| (if button_state = .Button_DOWN ∨ button_state = .Button_PRESSED
               then 1 <<< bit_index else 0)

/-- The button bitmask accumulated by the eight `SET_BUTTON_BIT` lines of
`publish_controller_data_frame` (ControllerManager.cpp lines 360-368). -/
def computed_button_bitmask (s : PSMoveState) : Nat :=
  SET_BUTTON_BIT (SET_BUTTON_BIT (SET_BUTTON_BIT (SET_BUTTON_BIT
    (SET_BUTTON_BIT (SET_BUTTON_BIT (SET_BUTTON_BIT (SET_BUTTON_BIT
      0 TRIANGLE s.Triangle) CIRCLE s.Circle) CROSS s.Cross) SQUARE s.Square)
        SELECT s.Select) START s.Start) PS s.PS) MOVE s.Move

/-- The published protobuf frame (`PSMoveProtocol::ControllerDataFrame`),
with exactly the fields `publish_controller_data_frame` sets. -/
structure ControllerDataFrame where
  psmove_id : Nat
  sequence_num : Nat
  isconnected : Bool
  iscurrentlytracking : Bool
  istrackingenabled : Bool
  orientation_w : Int
  orientation_x : Int
  orientation_y : Int
  orientation_z : Int
  position_x : Int
  position_y : Int
  position_z : Int
  button_down_bitmask : Nat
  trigger_value : Nat
deriving DecidableEq, Repr

/-- `ControllerManagerImpl::publish_controller_data_frame`
(ControllerManager.cpp lines 333-374): builds one frame from the session's
pose and state, stamps the current `m_sequence_number` and post-increments
it.  Note line 369 of the source calls `set_button_down_bitmask(0)` with the
literal `0`, discarding the locally computed `button_bitmask`; the embedding
reproduces that literally. -/
def publish_controller_data_frame (controller : PSMoveController)
    (m_sequence_number : Nat) : ControllerDataFrame × Nat :=
  let controller_pose := controller.pose
  let controller_state := controller.state
  let button_bitmask := computed_button_bitmask controller_state
  ({ psmove_id := controller.psmove_id
     sequence_num := m_sequence_number
     isconnected := true
     iscurrentlytracking := false
     istrackingenabled := true
     orientation_w := controller_pose.qw
     orientation_x := controller_pose.qx
     orientation_y := controller_pose.qy
     orientation_z := controller_pose.qz
     position_x := controller_pose.px
     position_y := controller_pose.py
     position_z := controller_pose.pz
     -- source line 369: `data_frame->set_button_down_bitmask(0);`
     button_down_bitmask := 0
     trigger_value := controller_state.Trigger },
   m_sequence_number + 1)

/-- Consumer-visible notifications.  The source emits these as server log
lines (the spec's best-effort, log-level notification channel); the payloads
are the indices the corresponding log statements print. -/
inductive Notification where
  | controllerMoved (old_id : Nat) (new_id : Nat)
  | controllerConnected (controller_index : Nat)
  | capacityExceeded
  | closedStaleController (controller_index : Nat)
  | closedDueToReadFailure (controller_index : Nat)
deriving DecidableEq, Repr

/-- `ControllerManagerImpl::poll_open_controllers`
(ControllerManager.cpp lines 152-184), as a structural recursion over the
slot table (the source's `for` loop over `m_controllers`).  For each open
slot it dispatches on `readDataIn`: no-data is skipped, new data updates the
session and publishes a frame, failure closes the session and emits the
closing log notification.  Returns the updated table, the updated sequence
counter, the frames published this pass (in slot order) and the
notifications. -/
def poll_open_controllers (readFn : Nat → ReadDataResult) :
    List (Option PSMoveController) → Nat → Nat →
    List (Option PSMoveController) × Nat × List ControllerDataFrame × List Notification
  | [], seq, _ => ([], seq, [], [])
  | none :: rest, seq, idx =>
    match poll_open_controllers readFn rest seq (idx + 1) with
    | (t, s, fs, ns) => (none :: t, s, fs, ns)
  | some controller :: rest, seq, idx =>
    if controller.getIsOpen then
      match readFn controller.tag with
      | .SuccessNoData =>
        match poll_open_controllers readFn rest seq (idx + 1) with
        | (t, s, fs, ns) => (some controller :: t, s, fs, ns)
      | .SuccessNewData st ps =>
        let controller := { controller with state := st, pose := ps }
        match publish_controller_data_frame controller seq with
        | (frame, seq') =>
          match poll_open_controllers readFn rest seq' (idx + 1) with
          | (t, s, fs, ns) => (some controller :: t, s, frame :: fs, ns)
      | .Failure =>
        match poll_open_controllers readFn rest seq (idx + 1) with
        | (t, s, fs, ns) =>
          (some controller.close :: t, s, fs, .closedDueToReadFailure idx :: ns)
    else
      match poll_open_controllers readFn rest seq (idx + 1) with
      | (t, s, fs, ns) => (some controller :: t, s, fs, ns)

/-- `ControllerManagerImpl::find_open_controller_index`
(ControllerManager.cpp lines 297-313): scan the table in ascending index
order for the first non-null, open controller matching the enumerated
identity.  The source returns the index (size_t -1 when absent) and the
caller immediately fetches `m_controllers[index]`; the embedding returns the
index paired with that fetched entry, `none` standing for the -1 sentinel. -/
def find_open_controller_index :
    List (Option PSMoveController) → DeviceIdentity →
    Option (Nat × PSMoveController)
  | [], _ => none
  | oc :: rest, e =>
    match oc with
    | some controller =>
      if controller.getIsOpen && controller.matchesDeviceEnumerator e then
        some (0, controller)
      else
        (find_open_controller_index rest e).map (fun p => (p.1 + 1, p.2))
    | none => (find_open_controller_index rest e).map (fun p => (p.1 + 1, p.2))

/-- `ControllerManagerImpl::find_first_closed_controller_index`
(ControllerManager.cpp lines 315-331): first non-null, closed controller.
Index paired with the fetched entry, as in `find_open_controller_index`. -/
def find_first_closed_controller_index :
    List (Option PSMoveController) → Option (Nat × PSMoveController)
  | [] => none
  | oc :: rest =>
    match oc with
    | some controller =>
      if !controller.getIsOpen then some (0, controller)
      else (find_first_closed_controller_index rest).map (fun p => (p.1 + 1, p.2))
    | none => (find_first_closed_controller_index rest).map (fun p => (p.1 + 1, p.2))

/-- Step 1 of `update_connected_controllers` (ControllerManager.cpp lines
190-256): walk the enumerator snapshot; a matched open controller is moved
to temp position `new_controller_index` (re-labelled, with a moved
notification, when the index changed); otherwise the first closed controller
is moved there, re-labelled and opened (connected notification on success;
the source logs nothing on failure); when neither exists the source logs the
capacity error and `break`s out of the enumeration loop.  State carried:
remaining table, temp table, `new_controller_index`, notifications. -/
def update_connected_step1 (okFn : DeviceIdentity → Bool) :
    List DeviceIdentity → List (Option PSMoveController) →
    List (Option PSMoveController) → Nat → List Notification →
    List (Option PSMoveController) × List (Option PSMoveController) × Nat × List Notification
  | [], table, temp, n, ns => (table, temp, n, ns)
  | e :: rest, table, temp, n, ns =>
    match find_open_controller_index table e with
    | some (controller_index, existingController) =>
      let (existingController, ns) :=
        if n ≠ controller_index then
          (existingController.setPSMoveID n, ns ++ [.controllerMoved controller_index n])
        else (existingController, ns)
      update_connected_step1 okFn rest (table.set controller_index none)
        (temp.set n (some existingController)) (n + 1) ns
    | none =>
      match find_first_closed_controller_index table with
      | some (controller_index, existingController) =>
        let existingController := existingController.setPSMoveID n
        match existingController.openController e (okFn e) with
        | (existingController, opened) =>
          let ns := if opened then ns ++ [.controllerConnected controller_index] else ns
          update_connected_step1 okFn rest (table.set controller_index none)
            (temp.set n (some existingController)) (n + 1) ns
      | none => (table, temp, n, ns ++ [.capacityExceeded])

/-- Step 2 of `update_connected_controllers` (ControllerManager.cpp lines
258-287): every controller still left in the old table is an orphan; close
it (with the stale-controller warning) if it is still open, re-label it with
the running `new_controller_index` and append it to the temp table.  The
first argument is the remaining table suffix being scanned, the second the
original index of its head (`existing_controller_index`). -/
def update_connected_step2 :
    List (Option PSMoveController) → Nat →
    List (Option PSMoveController) → Nat → List Notification →
    List (Option PSMoveController) × Nat × List Notification
  | [], _, temp, n, ns => (temp, n, ns)
  | none :: rest, j, temp, n, ns => update_connected_step2 rest (j + 1) temp n ns
  | some existingController :: rest, j, temp, n, ns =>
    let (existingController, ns) :=
      if existingController.getIsOpen then
        (existingController.close, ns ++ [.closedStaleController j])
      else (existingController, ns)
    let existingController := existingController.setPSMoveID n
    update_connected_step2 rest (j + 1) (temp.set n (some existingController)) (n + 1) ns

/-- `ControllerManagerImpl::update_connected_controllers`
(ControllerManager.cpp lines 186-295): allocate an all-null temp table of
the pool size, run Step 1 over the enumerator snapshot, Step 2 over the
leftovers, then copy the temp table back over `m_controllers` (Step 3,
lines 289-294 — in the embedding the returned temp table *is* the new
table).  `okFn` supplies the transport outcome of each attempted open. -/
def update_connected_controllers (okFn : DeviceIdentity → Bool)
    (snapshot : List DeviceIdentity) (table : List (Option PSMoveController)) :
    List (Option PSMoveController) × List Notification :=
  let temp_controllers_list : List (Option PSMoveController) :=
    List.replicate table.length none
  match update_connected_step1 okFn snapshot table temp_controllers_list 0 [] with
  | (table1, temp1, n1, ns1) =>
    match update_connected_step2 table1 0 temp1 n1 ns1 with
    | (temp2, _, ns2) => (temp2, ns2)

/-- `ControllerManagerConfig` (ControllerManager.cpp lines 22-51): the two
intervals, in milliseconds. -/
structure ControllerManagerConfig where
  controller_poll_interval : Int
  controller_reconnect_interval : Int
deriving DecidableEq, Repr

/-- Default intervals (ControllerManager.cpp lines 11-12). -/
def default_config : ControllerManagerConfig :=
  { controller_poll_interval := 2, controller_reconnect_interval := 1000 }

/-- The mutable state of `ControllerManagerImpl` (ControllerManager.cpp
lines 376-381): slot table, global frame sequence counter and the two
scheduler timestamps (as millisecond instants). -/
structure ControllerManagerImpl where
  m_controllers : List (Option PSMoveController)
  m_sequence_number : Nat
  m_last_reconnect_time : Int
  m_last_poll_time : Int
deriving DecidableEq, Repr

/-- The `ControllerManagerImpl` constructor (ControllerManager.cpp lines
57-71): allocate `N` controllers, the one at index `i` labelled with
`psmove_id = i` (construction internals modelled from the spec: sessions
start Closed and unbound); sequence counter 0, both timestamps at the
epoch. -/
def ControllerManagerImpl.init (N : Nat) : ControllerManagerImpl :=
  { m_controllers := (List.range N).map (fun i => some
      { tag := i, psmove_id := i, isOpen := false, devicePath := none
        pose := psmovePosef.zero, state := PSMoveState.zero })
    m_sequence_number := 0
    m_last_reconnect_time := 0
    m_last_poll_time := 0 }

/-- `ControllerManagerImpl::update` (ControllerManager.cpp lines 99-122):
one scheduler tick.  `now` is the sampled clock; the poll pass runs when
`now - m_last_poll_time >= controller_poll_interval` (then stamps
`m_last_poll_time = now`), and independently the reconciliation pass runs
when `now - m_last_reconnect_time >= controller_reconnect_interval` (then
stamps `m_last_reconnect_time = now`).  The device-enumerator snapshot and
the transport oracles are parameters, as the manager samples them from the
outside world. -/
def ControllerManagerImpl.update (cfg : ControllerManagerConfig) (now : Int)
    (readFn : Nat → ReadDataResult) (okFn : DeviceIdentity → Bool)
    (snapshot : List DeviceIdentity) (s : ControllerManagerImpl) :
    ControllerManagerImpl × List ControllerDataFrame × List Notification :=
  let (s, frames, ns) :=
    if now - s.m_last_poll_time ≥ cfg.controller_poll_interval then
      match poll_open_controllers readFn s.m_controllers s.m_sequence_number 0 with
      | (table, seq, frames, ns) =>
        ({ s with m_controllers := table, m_sequence_number := seq,
                  m_last_poll_time := now }, frames, ns)
    else (s, [], [])
  if now - s.m_last_reconnect_time ≥ cfg.controller_reconnect_interval then
    match update_connected_controllers okFn snapshot s.m_controllers with
    | (table, ns2) =>
      ({ s with m_controllers := table, m_last_reconnect_time := now },
       frames, ns ++ ns2)
  else (s, frames, ns)

/-- `ControllerManagerImpl::setControllerRumble` (ControllerManager.cpp
lines 141-144): unimplemented stub in the source — returns `false`, touches
nothing. -/
def ControllerManagerImpl.setControllerRumble (s : ControllerManagerImpl)
    (_psmove_id : Nat) (_rumble_amount : Nat) : Bool × ControllerManagerImpl :=
  (false, s)

/-- `ControllerManagerImpl::resetPose` (ControllerManager.cpp lines
146-149): unimplemented stub in the source — returns `false`, touches
nothing. -/
def ControllerManagerImpl.resetPose (s : ControllerManagerImpl)
    (_psmove_id : Nat) : Bool × ControllerManagerImpl :=
  (false, s)

/-- One manager pass, for stating process-lifetime properties: either a
poll pass (with its read-outcome oracle) or a reconciliation pass (with its
enumerator snapshot and open-outcome oracle).  This is exactly the sequence
of passes `update` dispatches over the process lifetime, abstracted from the
clock values that trigger them. -/
inductive ManagerEvent where
  | pollPass (readFn : Nat → ReadDataResult)
  | reconcilePass (okFn : DeviceIdentity → Bool) (snapshot : List DeviceIdentity)

/-- Run a sequence of passes from a manager state, collecting every
published frame in publish order. -/
def runEvents : List ManagerEvent → ControllerManagerImpl →
    ControllerManagerImpl × List ControllerDataFrame
  | [], s => (s, [])
  | .pollPass readFn :: rest, s =>
    match poll_open_controllers readFn s.m_controllers s.m_sequence_number 0 with
    | (table, seq, frames, _) =>
      match runEvents rest { s with m_controllers := table, m_sequence_number := seq } with
      | (s', frames') => (s', frames ++ frames')
  | .reconcilePass okFn snapshot :: rest, s =>
    match update_connected_controllers okFn snapshot s.m_controllers with
    | (table, _) => runEvents rest { s with m_controllers := table }

/-! ### Basic facts about the slot-table scans -/

/-- Soundness of the open scan: a hit is a table entry that is open and
bound to the sought identity. -/
theorem find_open_controller_index_spec :
    ∀ (t : List (Option PSMoveController)) (e : DeviceIdentity) (i : Nat)
      (c : PSMoveController),
      find_open_controller_index t e = some (i, c) →
      t[i]? = some (some c) ∧ c.isOpen = true ∧ c.devicePath = some e := by
  intro t
  induction t with
  | nil => intro e i c h; simp [find_open_controller_index] at h
  | cons oc rest ih =>
    rcases oc with _ | d
    · intro e i c h
      simp only [find_open_controller_index, Option.map_eq_some'] at h
      obtain ⟨⟨i', c'⟩, hf, hp⟩ := h
      simp only [Prod.mk.injEq] at hp
      obtain ⟨hi, hc⟩ := hp
      subst hi; subst hc
      simpa using ih e i' c' hf
    · intro e i c h
      simp only [find_open_controller_index] at h
      split at h
      · next hcond =>
          simp only [Option.some.injEq, Prod.mk.injEq] at h
          obtain ⟨hi, hc⟩ := h
          subst hi; subst hc
          rw [Bool.and_eq_true] at hcond
          refine ⟨by simp, hcond.1, ?_⟩
          simpa [PSMoveController.matchesDeviceEnumerator] using hcond.2
      · next hcond =>
          rw [Option.map_eq_some'] at h
          obtain ⟨⟨i', c'⟩, hf, hp⟩ := h
          simp only [Prod.mk.injEq] at hp
          obtain ⟨hi, hc⟩ := hp
          subst hi; subst hc
          simpa using ih e i' c' hf

/-- Completeness of the open scan: a miss means no table entry is an open
controller bound to the sought identity. -/
theorem find_open_controller_index_none :
    ∀ (t : List (Option PSMoveController)) (e : DeviceIdentity),
      find_open_controller_index t e = none →
      ∀ (i : Nat) (c : PSMoveController),
        t[i]? = some (some c) → c.isOpen = true → c.devicePath = some e → False := by
  intro t
  induction t with
  | nil => intro e h i c hi; simp at hi
  | cons oc rest ih =>
    intro e h i c hi hopen hpath
    rcases oc with _ | d
    · simp only [find_open_controller_index, Option.map_eq_none'] at h
      cases i with
      | zero => simp at hi
      | succ i => exact ih e h i c (by simpa using hi) hopen hpath
    · simp only [find_open_controller_index] at h
      split at h
      · simp at h
      · next hcond =>
          rw [Option.map_eq_none'] at h
          cases i with
          | zero =>
            simp only [List.getElem?_cons_zero, Option.some.injEq] at hi
            subst hi
            exact hcond (by
              simp [PSMoveController.getIsOpen, PSMoveController.matchesDeviceEnumerator,
                hopen, hpath])
          | succ i => exact ih e h i c (by simpa using hi) hopen hpath

/-- The open scan returns the first hit: every earlier entry fails the
open-and-matching test. -/
theorem find_open_controller_index_first :
    ∀ (t : List (Option PSMoveController)) (e : DeviceIdentity) (i : Nat)
      (c : PSMoveController),
      find_open_controller_index t e = some (i, c) →
      ∀ (j : Nat), j < i → ∀ (d : PSMoveController), t[j]? = some (some d) →
        d.isOpen = true → d.devicePath = some e → False := by
  intro t
  induction t with
  | nil => intro e i c h; simp [find_open_controller_index] at h
  | cons oc rest ih =>
    intro e i c h j hj d hd hopen hpath
    rcases oc with _ | d0
    · simp only [find_open_controller_index, Option.map_eq_some'] at h
      obtain ⟨⟨i', c'⟩, hf, hp⟩ := h
      simp only [Prod.mk.injEq] at hp
      obtain ⟨hi, hc⟩ := hp
      subst hi; subst hc
      cases j with
      | zero => simp at hd
      | succ j => exact ih e i' c' hf j (by omega) d (by simpa using hd) hopen hpath
    · simp only [find_open_controller_index] at h
      split at h
      · next hcond =>
          simp only [Option.some.injEq, Prod.mk.injEq] at h
          omega
      · next hcond =>
          rw [Option.map_eq_some'] at h
          obtain ⟨⟨i', c'⟩, hf, hp⟩ := h
          simp only [Prod.mk.injEq] at hp
          obtain ⟨hi, hc⟩ := hp
          subst hi; subst hc
          cases j with
          | zero =>
            simp only [List.getElem?_cons_zero, Option.some.injEq] at hd
            subst hd
            exact hcond (by
              simp [PSMoveController.getIsOpen, PSMoveController.matchesDeviceEnumerator,
                hopen, hpath])
          | succ j => exact ih e i' c' hf j (by omega) d (by simpa using hd) hopen hpath

/-- Constructing an open-scan hit: an open matching entry at `i` with no
open matching entry before it is what the scan returns. -/
theorem find_open_controller_index_of :
    ∀ (t : List (Option PSMoveController)) (e : DeviceIdentity) (i : Nat)
      (c : PSMoveController),
      t[i]? = some (some c) → c.isOpen = true → c.devicePath = some e →
      (∀ (j : Nat) (d : PSMoveController), j < i → t[j]? = some (some d) →
        d.isOpen = true → d.devicePath = some e → False) →
      find_open_controller_index t e = some (i, c) := by
  intro t
  induction t with
  | nil => intro e i c hi; simp at hi
  | cons oc rest ih =>
    intro e i c hi hopen hpath hfirst
    rcases oc with _ | d0
    · cases i with
      | zero => simp at hi
      | succ i =>
        have hrec := ih e i c (by simpa using hi) hopen hpath
          (fun j d hj hd ho hp => hfirst (j + 1) d (by omega) (by simpa using hd) ho hp)
        simp [find_open_controller_index, hrec]
    · cases i with
      | zero =>
        simp only [List.getElem?_cons_zero, Option.some.injEq] at hi
        subst hi
        simp [find_open_controller_index, PSMoveController.getIsOpen,
          PSMoveController.matchesDeviceEnumerator, hopen, hpath]
      | succ i =>
        have hnot : (d0.getIsOpen && d0.matchesDeviceEnumerator e) = false := by
          rw [Bool.eq_false_iff]
          intro hcond
          rw [Bool.and_eq_true] at hcond
          exact hfirst 0 d0 (by omega) (by simp) hcond.1
            (by simpa [PSMoveController.matchesDeviceEnumerator] using hcond.2)
        have hrec := ih e i c (by simpa using hi) hopen hpath
          (fun j d hj hd ho hp => hfirst (j + 1) d (by omega) (by simpa using hd) ho hp)
        simp [find_open_controller_index, hnot, hrec]

/-- Soundness of the closed scan: a hit is a closed table entry. -/
theorem find_first_closed_controller_index_spec :
    ∀ (t : List (Option PSMoveController)) (i : Nat) (c : PSMoveController),
      find_first_closed_controller_index t = some (i, c) →
      t[i]? = some (some c) ∧ c.isOpen = false := by
  intro t
  induction t with
  | nil => intro i c h; simp [find_first_closed_controller_index] at h
  | cons oc rest ih =>
    intro i c h
    rcases oc with _ | d
    · simp only [find_first_closed_controller_index, Option.map_eq_some'] at h
      obtain ⟨⟨i', c'⟩, hf, hp⟩ := h
      simp only [Prod.mk.injEq] at hp
      obtain ⟨hi, hc⟩ := hp
      subst hi; subst hc
      simpa using ih i' c' hf
    · simp only [find_first_closed_controller_index] at h
      split at h
      · next hcond =>
          simp only [Option.some.injEq, Prod.mk.injEq] at h
          obtain ⟨hi, hc⟩ := h
          subst hi; subst hc
          refine ⟨by simp, ?_⟩
          simpa [PSMoveController.getIsOpen] using hcond
      · next hcond =>
          rw [Option.map_eq_some'] at h
          obtain ⟨⟨i', c'⟩, hf, hp⟩ := h
          simp only [Prod.mk.injEq] at hp
          obtain ⟨hi, hc⟩ := hp
          subst hi; subst hc
          simpa using ih i' c' hf

/-! ### Counting and multiset view of the pool -/

/-- Number of non-null entries of an option table. -/
def countSome (l : List (Option PSMoveController)) : Nat :=
  (l.filterMap id).length

/-- The session-object view of a table: for each non-null entry, its object
tag together with the fields that no reconciliation operation may touch
(last decoded state and pose).  Two tables with permuted `poolView`s hold
the same multiset of session objects, each changed at most in `psmove_id`,
`isOpen` and `devicePath`. -/
def poolView (l : List (Option PSMoveController)) :
    List (Nat × PSMoveState × psmovePosef) :=
  (l.filterMap id).map (fun c => (c.tag, c.state, c.pose))

theorem countSome_nil : countSome [] = 0 := rfl

theorem countSome_cons_none (l : List (Option PSMoveController)) :
    countSome (none :: l) = countSome l := by
  simp [countSome]

theorem countSome_cons_some (c : PSMoveController) (l : List (Option PSMoveController)) :
    countSome (some c :: l) = countSome l + 1 := by
  simp [countSome]

/-- Nulling a non-null entry decrements the non-null count. -/
theorem countSome_set_none :
    ∀ (l : List (Option PSMoveController)) (i : Nat) (c : PSMoveController),
      l[i]? = some (some c) → countSome (l.set i none) + 1 = countSome l := by
  intro l
  induction l with
  | nil => intro i c hi; simp at hi
  | cons oc rest ih =>
    intro i c hi
    cases i with
    | zero =>
      simp only [List.getElem?_cons_zero, Option.some.injEq] at hi
      subst hi
      simp [List.set, countSome_cons_none, countSome_cons_some]
    | succ i =>
      have := ih i c (by simpa using hi)
      rcases oc with _ | d <;>
        simp [List.set, countSome_cons_none, countSome_cons_some, this]

/-- A table whose entries are all non-null has full count. -/
theorem countSome_eq_length :
    ∀ (l : List (Option PSMoveController)), (∀ x ∈ l, x.isSome) →
      countSome l = l.length := by
  intro l
  induction l with
  | nil => intro _; rfl
  | cons oc rest ih =>
    intro h
    rcases oc with _ | d
    · exact absurd (h none (by simp)) (by simp)
    · have := ih (fun x hx => h x (by simp [hx]))
      simp [countSome_cons_some, this]

theorem countSome_le_length :
    ∀ (l : List (Option PSMoveController)), countSome l ≤ l.length := by
  intro l
  induction l with
  | nil => simp [countSome]
  | cons oc rest ih =>
    rcases oc with _ | d
    · simp only [countSome_cons_none]; simp only [List.length_cons]; omega
    · simp only [countSome_cons_some, List.length_cons]; omega

/-- Writing a session into a null slot adds exactly that session to the
pool view. -/
theorem poolView_set_some :
    ∀ (l : List (Option PSMoveController)) (n : Nat) (c : PSMoveController),
      l[n]? = some none →
      (poolView (l.set n (some c))).Perm ((c.tag, c.state, c.pose) :: poolView l) := by
  intro l
  induction l with
  | nil => intro n c hn; simp at hn
  | cons oc rest ih =>
    intro n c hn
    cases n with
    | zero =>
      simp only [List.getElem?_cons_zero, Option.some.injEq] at hn
      subst hn
      simp [List.set, poolView]
    | succ n =>
      have hperm := ih n c (by simpa using hn)
      rcases oc with _ | d
      · simpa [List.set, poolView] using hperm
      · have : poolView (some d :: rest.set n (some c)) =
            (d.tag, d.state, d.pose) :: poolView (rest.set n (some c)) := by
          simp [poolView]
        rw [List.set, this]
        have : poolView (some d :: rest) = (d.tag, d.state, d.pose) :: poolView rest := by
          simp [poolView]
        rw [this]
        exact (hperm.cons _).trans (List.Perm.swap _ _ _)

/-- Nulling a non-null slot removes exactly that session from the pool
view. -/
theorem poolView_set_none :
    ∀ (l : List (Option PSMoveController)) (i : Nat) (c : PSMoveController),
      l[i]? = some (some c) →
      ((c.tag, c.state, c.pose) :: poolView (l.set i none)).Perm (poolView l) := by
  intro l
  induction l with
  | nil => intro i c hi; simp at hi
  | cons oc rest ih =>
    intro i c hi
    cases i with
    | zero =>
      simp only [List.getElem?_cons_zero, Option.some.injEq] at hi
      subst hi
      simp [List.set, poolView]
    | succ i =>
      have hperm := ih i c (by simpa using hi)
      rcases oc with _ | d
      · simpa [List.set, poolView] using hperm
      · have h1 : poolView (some d :: rest.set i none) =
            (d.tag, d.state, d.pose) :: poolView (rest.set i none) := by
          simp [poolView]
        have h2 : poolView (some d :: rest) = (d.tag, d.state, d.pose) :: poolView rest := by
          simp [poolView]
        rw [List.set, h1, h2]
        exact (List.Perm.swap _ _ _).trans (hperm.cons _)

/-! ### Claim C1: published button bitmask -/

/-- A session whose last read reported the Triangle button down: the failing
input for the button-bitmask claim. -/
def triangleDownController : PSMoveController :=
  { tag := 0, psmove_id := 0, isOpen := true, devicePath := some 1
    pose := psmovePosef.zero
    state := { PSMoveState.zero with Triangle := .Button_DOWN } }

/-- C1: the claim says each published frame's `button_bitmask` has a button's
designated bit set iff that button's last state is down or pressed.  The
source computes that mask (`button_bitmask`, lines 360-368) but then calls
`set_button_down_bitmask(0)` with the literal `0` (line 369): every published
frame carries bitmask 0, and at the failing input — Triangle reported down —
the TRIANGLE bit is absent from the published frame even though the computed
mask has exactly that bit set. -/
theorem c1_button_bitmask_discarded :
    (∀ (c : PSMoveController) (seq : Nat),
      (publish_controller_data_frame c seq).1.button_down_bitmask = 0) ∧
    computed_button_bitmask triangleDownController.state = 1 <<< TRIANGLE ∧
    Nat.testBit
      (publish_controller_data_frame triangleDownController 0).1.button_down_bitmask
      TRIANGLE = false :=
  ⟨fun _ _ => rfl, by decide, by decide⟩

/-! ### Claim C10: rumble and pose-reset stubs -/

/-- C10: `setControllerRumble` and `resetPose` return `false` for every
argument and leave the manager state — sessions, slot table, sequence
counter and both scheduler timestamps — entirely unchanged. -/
theorem c10_rumble_resetpose_noop (s : ControllerManagerImpl)
    (psmove_id rumble_amount : Nat) :
    s.setControllerRumble psmove_id rumble_amount = (false, s) ∧
    s.resetPose psmove_id = (false, s) :=
  ⟨rfl, rfl⟩

/-! ### Claim C9: the tick scheduler -/

/-- C9: on `tick(now)` the poll pass runs iff
`now - last_poll_time ≥ poll_interval` (and then `last_poll_time := now`,
otherwise the timestamp is untouched); independently the reconciliation
runs iff `now - last_reconnect_time ≥ reconnect_interval` (and then
`last_reconnect_time := now`); so one tick runs neither, either or both.
The conjuncts characterise each timestamp, the poll pass's observable
output (frames and sequence counter) and the table, each guarded solely by
its own elapsed-time test. -/
theorem c9_scheduler_tick (cfg : ControllerManagerConfig) (now : Int)
    (readFn : Nat → ReadDataResult) (okFn : DeviceIdentity → Bool)
    (snapshot : List DeviceIdentity) (s : ControllerManagerImpl) :
    (ControllerManagerImpl.update cfg now readFn okFn snapshot s).1.m_last_poll_time =
      (if now - s.m_last_poll_time ≥ cfg.controller_poll_interval then now
       else s.m_last_poll_time) ∧
    (ControllerManagerImpl.update cfg now readFn okFn snapshot s).1.m_last_reconnect_time =
      (if now - s.m_last_reconnect_time ≥ cfg.controller_reconnect_interval then now
       else s.m_last_reconnect_time) ∧
    (ControllerManagerImpl.update cfg now readFn okFn snapshot s).2.1 =
      (if now - s.m_last_poll_time ≥ cfg.controller_poll_interval then
        (poll_open_controllers readFn s.m_controllers s.m_sequence_number 0).2.2.1
       else []) ∧
    (ControllerManagerImpl.update cfg now readFn okFn snapshot s).1.m_sequence_number =
      (if now - s.m_last_poll_time ≥ cfg.controller_poll_interval then
        (poll_open_controllers readFn s.m_controllers s.m_sequence_number 0).2.1
       else s.m_sequence_number) ∧
    (ControllerManagerImpl.update cfg now readFn okFn snapshot s).1.m_controllers =
      (let t1 := if now - s.m_last_poll_time ≥ cfg.controller_poll_interval then
           (poll_open_controllers readFn s.m_controllers s.m_sequence_number 0).1
         else s.m_controllers
       if now - s.m_last_reconnect_time ≥ cfg.controller_reconnect_interval then
         (update_connected_controllers okFn snapshot t1).1
       else t1) := by
  by_cases h1 : now - s.m_last_poll_time ≥ cfg.controller_poll_interval <;>
    by_cases h2 : now - s.m_last_reconnect_time ≥ cfg.controller_reconnect_interval <;>
      simp [ControllerManagerImpl.update, h1, h2]

/-! ### Claim C2: frame sequence numbers -/

/-- The frames published by one poll pass carry consecutive sequence
numbers starting at the incoming counter, and the counter advances by
exactly the number of published frames. -/
theorem poll_frames_sequence :
    ∀ (readFn : Nat → ReadDataResult) (t : List (Option PSMoveController))
      (seq idx : Nat),
      ((poll_open_controllers readFn t seq idx).2.2.1).map
          ControllerDataFrame.sequence_num =
        List.range' seq ((poll_open_controllers readFn t seq idx).2.2.1).length ∧
      (poll_open_controllers readFn t seq idx).2.1 =
        seq + ((poll_open_controllers readFn t seq idx).2.2.1).length := by
  intro readFn t
  induction t with
  | nil => intro seq idx; simp [poll_open_controllers]
  | cons oc rest ih =>
    intro seq idx
    rcases oc with _ | c
    · rcases hrec : poll_open_controllers readFn rest seq (idx + 1) with ⟨t', s', fs', ns'⟩
      have hih := ih seq (idx + 1)
      rw [hrec] at hih
      simpa [poll_open_controllers, hrec] using hih
    · by_cases hopen : c.getIsOpen = true
      · rcases hr : readFn c.tag with _ | ⟨st, ps⟩ | _
        · rcases hrec : poll_open_controllers readFn rest seq (idx + 1) with ⟨t', s', fs', ns'⟩
          have hih := ih seq (idx + 1)
          rw [hrec] at hih
          simpa [poll_open_controllers, hopen, hr, hrec] using hih
        · rcases hrec : poll_open_controllers readFn rest (seq + 1) (idx + 1)
            with ⟨t', s', fs', ns'⟩
          obtain ⟨hih1, hih2⟩ := ih (seq + 1) (idx + 1)
          rw [hrec] at hih1 hih2
          simp at hih1 hih2
          constructor
          · simp [poll_open_controllers, hopen, hr, hrec,
              publish_controller_data_frame, List.range'_succ, hih1]
          · simp [poll_open_controllers, hopen, hr, hrec, publish_controller_data_frame]
            omega
        · rcases hrec : poll_open_controllers readFn rest seq (idx + 1) with ⟨t', s', fs', ns'⟩
          have hih := ih seq (idx + 1)
          rw [hrec] at hih
          simpa [poll_open_controllers, hopen, hr, hrec] using hih
      · rcases hrec : poll_open_controllers readFn rest seq (idx + 1) with ⟨t', s', fs', ns'⟩
        have hih := ih seq (idx + 1)
        rw [hrec] at hih
        rw [Bool.not_eq_true] at hopen
        simpa [poll_open_controllers, hopen, hrec] using hih

/-- Over any sequence of passes, the frames published from a manager state
carry the consecutive sequence numbers starting at its counter, and the
final counter is the start plus the number of frames. -/
theorem runEvents_frames_sequence :
    ∀ (evs : List ManagerEvent) (s : ControllerManagerImpl),
      ((runEvents evs s).2).map ControllerDataFrame.sequence_num =
        List.range' s.m_sequence_number ((runEvents evs s).2).length ∧
      (runEvents evs s).1.m_sequence_number =
        s.m_sequence_number + ((runEvents evs s).2).length := by
  intro evs
  induction evs with
  | nil => intro s; simp [runEvents]
  | cons ev rest ih =>
    intro s
    rcases ev with readFn | ⟨okFn, snapshot⟩
    · rcases hp : poll_open_controllers readFn s.m_controllers s.m_sequence_number 0
        with ⟨t', q', fs', ns'⟩
      obtain ⟨hp1, hp2⟩ := poll_frames_sequence readFn s.m_controllers s.m_sequence_number 0
      rw [hp] at hp1 hp2
      simp at hp1 hp2
      rcases hrun : runEvents rest
          { s with m_controllers := t', m_sequence_number := q' } with ⟨s', fs''⟩
      obtain ⟨hr1, hr2⟩ := ih { s with m_controllers := t', m_sequence_number := q' }
      rw [hrun] at hr1 hr2
      simp at hr1 hr2
      simp only [runEvents, hp, hrun]
      constructor
      · simp only [List.map_append, List.length_append, hp1, hr1, hp2]
        rw [Nat.add_comm fs'.length fs''.length]
        exact List.range'_append_1 ..
      · simp only [List.length_append]
        omega
    · rcases hu : update_connected_controllers okFn snapshot s.m_controllers
        with ⟨t', ns'⟩
      have hih := ih { s with m_controllers := t' }
      simp only [runEvents, hu]
      simpa using hih

/-- C2: over every sequence of passes from process start, the published
frames' sequence numbers are exactly `0, 1, 2, ...` in publish order —
the first published frame carries 0 and each subsequent frame the previous
value plus one, whichever slot each frame is for. -/
theorem c2_sequence_numbers_consecutive (N : Nat) (evs : List ManagerEvent) :
    ((runEvents evs (ControllerManagerImpl.init N)).2).map
        ControllerDataFrame.sequence_num =
      List.range ((runEvents evs (ControllerManagerImpl.init N)).2).length := by
  have h := (runEvents_frames_sequence evs (ControllerManagerImpl.init N)).1
  rw [List.range_eq_range']
  simpa [ControllerManagerImpl.init] using h

/-! ### Claim C8: read-failure isolation in the poll pass -/

/-- The effect of one poll pass on a single slot: skip closed or null
slots, keep the session on no-data, store the decoded payload on new data,
close the session on a failed read. -/
def pollOne (readFn : Nat → ReadDataResult) :
    Option PSMoveController → Option PSMoveController
  | none => none
  | some c =>
    if c.getIsOpen then
      match readFn c.tag with
      | .SuccessNoData => some c
      | .SuccessNewData st ps => some { c with state := st, pose := ps }
      | .Failure => some c.close
    else some c

/-- The poll pass acts on the slot table pointwise: each slot's outcome is
a function of that slot's own session (and the read oracle) only. -/
theorem poll_table_map :
    ∀ (readFn : Nat → ReadDataResult) (t : List (Option PSMoveController))
      (seq idx : Nat),
      (poll_open_controllers readFn t seq idx).1 = t.map (pollOne readFn) := by
  intro readFn t
  induction t with
  | nil => intro seq idx; simp [poll_open_controllers]
  | cons oc rest ih =>
    intro seq idx
    rcases oc with _ | c
    · rcases hrec : poll_open_controllers readFn rest seq (idx + 1) with ⟨t', s', fs', ns'⟩
      have hih := ih seq (idx + 1)
      rw [hrec] at hih
      simpa [poll_open_controllers, hrec, pollOne] using hih
    · by_cases hopen : c.getIsOpen = true
      · rcases hr : readFn c.tag with _ | ⟨st, ps⟩ | _
        · rcases hrec : poll_open_controllers readFn rest seq (idx + 1) with ⟨t', s', fs', ns'⟩
          have hih := ih seq (idx + 1)
          rw [hrec] at hih
          simpa [poll_open_controllers, hopen, hr, hrec, pollOne] using hih
        · rcases hrec : poll_open_controllers readFn rest (seq + 1) (idx + 1)
            with ⟨t', s', fs', ns'⟩
          have hih := ih (seq + 1) (idx + 1)
          rw [hrec] at hih
          simpa [poll_open_controllers, hopen, hr, hrec,
            publish_controller_data_frame, pollOne] using hih
        · rcases hrec : poll_open_controllers readFn rest seq (idx + 1) with ⟨t', s', fs', ns'⟩
          have hih := ih seq (idx + 1)
          rw [hrec] at hih
          simpa [poll_open_controllers, hopen, hr, hrec, pollOne] using hih
      · rcases hrec : poll_open_controllers readFn rest seq (idx + 1) with ⟨t', s', fs', ns'⟩
        have hih := ih seq (idx + 1)
        rw [hrec] at hih
        rw [Bool.not_eq_true] at hopen
        simpa [poll_open_controllers, hopen, hrec, pollOne] using hih

/-- Every frame published by a poll pass originates from an open slot whose
read returned new data, and carries that session's `psmove_id`. -/
theorem poll_frames_provenance :
    ∀ (readFn : Nat → ReadDataResult) (t : List (Option PSMoveController))
      (seq idx : Nat) (f : ControllerDataFrame),
      f ∈ (poll_open_controllers readFn t seq idx).2.2.1 →
      ∃ (j : Nat) (d : PSMoveController) (st : PSMoveState) (ps : psmovePosef),
        t[j]? = some (some d) ∧ d.isOpen = true ∧
        readFn d.tag = .SuccessNewData st ps ∧ f.psmove_id = d.psmove_id := by
  intro readFn t
  induction t with
  | nil => intro seq idx f hf; simp [poll_open_controllers] at hf
  | cons oc rest ih =>
    intro seq idx f hf
    rcases oc with _ | c
    · rcases hrec : poll_open_controllers readFn rest seq (idx + 1) with ⟨t', s', fs', ns'⟩
      simp only [poll_open_controllers, hrec] at hf
      obtain ⟨j, d, st, ps, hj, hdo, hread, hid⟩ := ih seq (idx + 1) f (by rw [hrec]; exact hf)
      exact ⟨j + 1, d, st, ps, by simpa using hj, hdo, hread, hid⟩
    · by_cases hopen : c.getIsOpen = true
      · rcases hr : readFn c.tag with _ | ⟨st0, ps0⟩ | _
        · rcases hrec : poll_open_controllers readFn rest seq (idx + 1) with ⟨t', s', fs', ns'⟩
          simp only [poll_open_controllers, hopen, if_true, hr, hrec] at hf
          obtain ⟨j, d, st, ps, hj, hdo, hread, hid⟩ :=
            ih seq (idx + 1) f (by rw [hrec]; exact hf)
          exact ⟨j + 1, d, st, ps, by simpa using hj, hdo, hread, hid⟩
        · rcases hrec : poll_open_controllers readFn rest (seq + 1) (idx + 1)
            with ⟨t', s', fs', ns'⟩
          simp only [poll_open_controllers, hopen, if_true, hr,
            publish_controller_data_frame, hrec, List.mem_cons] at hf
          rcases hf with hf | hf
          · refine ⟨0, c, st0, ps0, by simp, ?_, hr, ?_⟩
            · simpa [PSMoveController.getIsOpen] using hopen
            · rw [hf]
          · obtain ⟨j, d, st, ps, hj, hdo, hread, hid⟩ :=
              ih (seq + 1) (idx + 1) f (by rw [hrec]; exact hf)
            exact ⟨j + 1, d, st, ps, by simpa using hj, hdo, hread, hid⟩
        · rcases hrec : poll_open_controllers readFn rest seq (idx + 1) with ⟨t', s', fs', ns'⟩
          simp only [poll_open_controllers, hopen, if_true, hr, hrec] at hf
          obtain ⟨j, d, st, ps, hj, hdo, hread, hid⟩ :=
            ih seq (idx + 1) f (by rw [hrec]; exact hf)
          exact ⟨j + 1, d, st, ps, by simpa using hj, hdo, hread, hid⟩
      · rcases hrec : poll_open_controllers readFn rest seq (idx + 1) with ⟨t', s', fs', ns'⟩
        rw [Bool.not_eq_true] at hopen
        simp only [poll_open_controllers, hopen, Bool.false_eq_true, if_false, hrec] at hf
        obtain ⟨j, d, st, ps, hj, hdo, hread, hid⟩ :=
          ih seq (idx + 1) f (by rw [hrec]; exact hf)
        exact ⟨j + 1, d, st, ps, by simpa using hj, hdo, hread, hid⟩

/-- C8: when an open slot's read fails during a poll pass, that session is
closed, no frame is published for that slot in the pass, and every other
slot's outcome is the pointwise `pollOne` of its own session — the failure
handling touches nothing outside the failing slot. -/
theorem c8_read_failure_isolation
    (readFn : Nat → ReadDataResult) (t : List (Option PSMoveController))
    (seq i : Nat) (c : PSMoveController)
    (hwf : ∀ (j : Nat) (d : PSMoveController), t[j]? = some (some d) → d.psmove_id = j)
    (hi : t[i]? = some (some c)) (hopen : c.isOpen = true)
    (hfail : readFn c.tag = .Failure) :
    (poll_open_controllers readFn t seq 0).1[i]? = some (some c.close) ∧
    (∀ (j : Nat), j ≠ i →
      (poll_open_controllers readFn t seq 0).1[j]? = (t[j]?).map (pollOne readFn)) ∧
    (∀ f ∈ (poll_open_controllers readFn t seq 0).2.2.1, f.psmove_id ≠ i) := by
  refine ⟨?_, ?_, ?_⟩
  · rw [poll_table_map, List.getElem?_map, hi]
    simp [pollOne, PSMoveController.getIsOpen, hopen, hfail]
  · intro j _
    rw [poll_table_map, List.getElem?_map]
  · intro f hf hid
    obtain ⟨j, d, st, ps, hj, hdo, hread, hfid⟩ :=
      poll_frames_provenance readFn t seq 0 f hf
    have hdj : d.psmove_id = j := hwf j d hj
    have hji : j = i := by omega
    subst hji
    rw [hi] at hj
    obtain rfl : c = d := by simpa using hj
    rw [hfail] at hread
    exact absurd hread (by simp)

/-- Read oracle that fails on every device. -/
def readAllFail : Nat → ReadDataResult := fun _ => .Failure

/-- Open session fixture at slot 0 (bound to device 5). -/
def c8SessionA : PSMoveController :=
  { tag := 0, psmove_id := 0, isOpen := true, devicePath := some 5
    pose := psmovePosef.zero, state := PSMoveState.zero }

/-- Closed session fixture at slot 1. -/
def c8SessionB : PSMoveController :=
  { tag := 1, psmove_id := 1, isOpen := false, devicePath := none
    pose := psmovePosef.zero, state := PSMoveState.zero }

/-- Witness for `c8_read_failure_isolation` at a concrete two-slot table. -/
theorem c8_witness :
    (poll_open_controllers readAllFail [some c8SessionA, some c8SessionB] 7 0).1[0]? =
      some (some c8SessionA.close) ∧
    (poll_open_controllers readAllFail [some c8SessionA, some c8SessionB] 7 0).1[1]? =
      ([some c8SessionA, some c8SessionB][1]?).map (pollOne readAllFail) ∧
    (∀ f ∈ (poll_open_controllers readAllFail
        [some c8SessionA, some c8SessionB] 7 0).2.2.1, f.psmove_id ≠ 0) := by
  have h := c8_read_failure_isolation readAllFail [some c8SessionA, some c8SessionB]
    7 0 c8SessionA
    (by
      intro j d hd
      cases j with
      | zero =>
        simp only [List.getElem?_cons_zero, Option.some.injEq] at hd
        subst hd; rfl
      | succ j =>
        cases j with
        | zero =>
          simp only [List.getElem?_cons_succ, List.getElem?_cons_zero,
            Option.some.injEq] at hd
          subst hd; rfl
        | succ j => simp at hd)
    rfl rfl rfl
  exact ⟨h.1, h.2.1 1 (by decide), h.2.2⟩

/-! ### Claim C4: capacity exhaustion and write bounds -/

/-- Shadow of `update_connected_step1` that follows the identical recursion
and records that every slot-table write (`m_controllers[controller_index]`)
and every temp-table write (`temp_controllers_list[new_controller_index]`)
lands inside `[0, N)`. -/
def step1_writes_inbounds (okFn : DeviceIdentity → Bool) :
    List DeviceIdentity → List (Option PSMoveController) →
    List (Option PSMoveController) → Nat → Bool
  | [], _, _, _ => true
  | e :: rest, table, temp, n =>
    match find_open_controller_index table e with
    | some (controller_index, existingController) =>
      let existingController :=
        if n ≠ controller_index then existingController.setPSMoveID n
        else existingController
      decide (controller_index < table.length) && decide (n < temp.length) &&
      step1_writes_inbounds okFn rest (table.set controller_index none)
        (temp.set n (some existingController)) (n + 1)
    | none =>
      match find_first_closed_controller_index table with
      | some (controller_index, existingController) =>
        let existingController :=
          ((existingController.setPSMoveID n).openController e (okFn e)).1
        decide (controller_index < table.length) && decide (n < temp.length) &&
        step1_writes_inbounds okFn rest (table.set controller_index none)
          (temp.set n (some existingController)) (n + 1)
      | none => true

/-- Shadow of `update_connected_step2` recording that every temp-table
write lands inside `[0, N)`. -/
def step2_writes_inbounds :
    List (Option PSMoveController) → List (Option PSMoveController) → Nat → Bool
  | [], _, _ => true
  | none :: rest, temp, n => step2_writes_inbounds rest temp n
  | some existingController :: rest, temp, n =>
    let existingController :=
      (if existingController.getIsOpen then existingController.close
       else existingController).setPSMoveID n
    decide (n < temp.length) &&
    step2_writes_inbounds rest (temp.set n (some existingController)) (n + 1)

/-- All writes of a full reconciliation pass stay in bounds. -/
def update_connected_writes_inbounds (okFn : DeviceIdentity → Bool)
    (snapshot : List DeviceIdentity) (table : List (Option PSMoveController)) : Bool :=
  step1_writes_inbounds okFn snapshot table (List.replicate table.length none) 0 &&
  (match update_connected_step1 okFn snapshot table
      (List.replicate table.length none) 0 [] with
   | (table1, temp1, n1, _) => step2_writes_inbounds table1 temp1 n1)

/-- Step 1 maintains the budget equation `countSome table + n = temp.length`:
each consumed enumeration position removes one session from the old table
and advances the temp cursor by one. -/
theorem step1_preserves_budget :
    ∀ (okFn : DeviceIdentity → Bool) (es : List DeviceIdentity)
      (table temp : List (Option PSMoveController)) (n : Nat) (ns : List Notification),
      countSome table + n = temp.length →
      countSome (update_connected_step1 okFn es table temp n ns).1 +
          (update_connected_step1 okFn es table temp n ns).2.2.1 =
        (update_connected_step1 okFn es table temp n ns).2.1.length := by
  intro okFn es
  induction es with
  | nil => intro table temp n ns h; simpa [update_connected_step1] using h
  | cons e rest ih =>
    intro table temp n ns h
    rcases hfind : find_open_controller_index table e with _ | ⟨i, c⟩
    · rcases hclosed : find_first_closed_controller_index table with _ | ⟨i, c⟩
      · simpa [update_connected_step1, hfind, hclosed] using h
      · obtain ⟨hentry, _⟩ := find_first_closed_controller_index_spec table i c hclosed
        have hcount := countSome_set_none table i c hentry
        simp only [update_connected_step1, hfind, hclosed]
        exact ih (table.set i none) _ (n + 1) _ (by simp [List.length_set]; omega)
    · obtain ⟨hentry, _, _⟩ := find_open_controller_index_spec table e i c hfind
      have hcount := countSome_set_none table i c hentry
      simp only [update_connected_step1, hfind]
      exact ih (table.set i none) _ (n + 1) _ (by simp [List.length_set]; omega)

/-- Under the budget equation every write of Step 1 is in bounds. -/
theorem step1_writes_inbounds_true :
    ∀ (okFn : DeviceIdentity → Bool) (es : List DeviceIdentity)
      (table temp : List (Option PSMoveController)) (n : Nat),
      countSome table + n = temp.length →
      step1_writes_inbounds okFn es table temp n = true := by
  intro okFn es
  induction es with
  | nil => intro table temp n h; rfl
  | cons e rest ih =>
    intro table temp n h
    rcases hfind : find_open_controller_index table e with _ | ⟨i, c⟩
    · rcases hclosed : find_first_closed_controller_index table with _ | ⟨i, c⟩
      · simp [step1_writes_inbounds, hfind, hclosed]
      · obtain ⟨hentry, _⟩ := find_first_closed_controller_index_spec table i c hclosed
        have hcount := countSome_set_none table i c hentry
        have hlt : i < table.length := by
          rcases List.getElem?_eq_some.mp hentry with ⟨hl, _⟩
          exact hl
        simp only [step1_writes_inbounds, hfind, hclosed, Bool.and_eq_true, decide_eq_true_eq]
        refine ⟨⟨hlt, by omega⟩, ?_⟩
        exact ih (table.set i none) _ (n + 1) (by simp [List.length_set]; omega)
    · obtain ⟨hentry, _, _⟩ := find_open_controller_index_spec table e i c hfind
      have hcount := countSome_set_none table i c hentry
      have hlt : i < table.length := by
        rcases List.getElem?_eq_some.mp hentry with ⟨hl, _⟩
        exact hl
      simp only [step1_writes_inbounds, hfind, Bool.and_eq_true, decide_eq_true_eq]
      refine ⟨⟨hlt, by omega⟩, ?_⟩
      exact ih (table.set i none) _ (n + 1) (by simp [List.length_set]; omega)

/-- Under the budget equation every write of Step 2 is in bounds. -/
theorem step2_writes_inbounds_true :
    ∀ (l temp : List (Option PSMoveController)) (n : Nat),
      countSome l + n = temp.length →
      step2_writes_inbounds l temp n = true := by
  intro l
  induction l with
  | nil => intro temp n h; rfl
  | cons oc rest ih =>
    intro temp n h
    rcases oc with _ | c
    · rw [countSome_cons_none] at h
      exact ih temp n h
    · rw [countSome_cons_some] at h
      simp only [step2_writes_inbounds, Bool.and_eq_true, decide_eq_true_eq]
      refine ⟨by omega, ?_⟩
      exact ih (temp.set n _) (n + 1) (by simp [List.length_set]; omega)

/-- C4: (a) when Step 1 reaches an enumerated identity with no matching open
session and no closed session left in the table, it emits exactly one
capacity-exceeded notification and stops, leaving the table, the temp
assignments made so far and the position counter untouched; (b) starting
from a fully populated table, every temp-table or slot-table index written
during the whole pass lies in `[0, N)`. -/
theorem c4_capacity_safety :
    (∀ (okFn : DeviceIdentity → Bool) (e : DeviceIdentity)
       (rest : List DeviceIdentity) (table temp : List (Option PSMoveController))
       (n : Nat) (ns : List Notification),
       find_open_controller_index table e = none →
       find_first_closed_controller_index table = none →
       update_connected_step1 okFn (e :: rest) table temp n ns =
         (table, temp, n, ns ++ [.capacityExceeded])) ∧
    (∀ (okFn : DeviceIdentity → Bool) (snapshot : List DeviceIdentity)
       (table : List (Option PSMoveController)),
       (∀ x ∈ table, x.isSome) →
       update_connected_writes_inbounds okFn snapshot table = true) := by
  constructor
  · intro okFn e rest table temp n ns h1 h2
    simp [update_connected_step1, h1, h2]
  · intro okFn snapshot table hall
    have hcount : countSome table = table.length := countSome_eq_length table hall
    unfold update_connected_writes_inbounds
    rw [Bool.and_eq_true]
    constructor
    · exact step1_writes_inbounds_true okFn snapshot table _ 0 (by simp [hcount])
    · rcases hs1 : update_connected_step1 okFn snapshot table
        (List.replicate table.length none) 0 [] with ⟨t1, temp1, n1, ns1⟩
      have hb := step1_preserves_budget okFn snapshot table
        (List.replicate table.length none) 0 [] (by simp [hcount])
      rw [hs1] at hb
      simp at hb
      exact step2_writes_inbounds_true t1 temp1 n1 hb

/-- Transport oracle that always opens successfully. -/
def okAlways : DeviceIdentity → Bool := fun _ => true

/-- Open session fixture (bound to device 9) filling a one-slot table. -/
def c4OpenSession : PSMoveController :=
  { tag := 0, psmove_id := 0, isOpen := true, devicePath := some 9
    pose := psmovePosef.zero, state := PSMoveState.zero }

/-- Witness for `c4_capacity_safety`: a one-slot table whose only session is
open and bound to a different device exhausts capacity at the first
enumerated identity, and all writes of the pass are in bounds. -/
theorem c4_witness :
    update_connected_step1 okAlways [3] [some c4OpenSession] [none] 0 [] =
      ([some c4OpenSession], [none], 0, [Notification.capacityExceeded]) ∧
    update_connected_writes_inbounds okAlways [3] [some c4OpenSession] = true :=
  ⟨c4_capacity_safety.1 okAlways 3 [] [some c4OpenSession] [none] 0 []
      (by decide) (by decide),
   c4_capacity_safety.2 okAlways [3] [some c4OpenSession] (by decide)⟩

/-! ### Claim C7: failed open attempts -/

/-- Transport oracle under which only device 20 opens successfully. -/
def okOnlyB : DeviceIdentity → Bool := fun e => decide (e = 20)

/-- The freshly constructed two-slot table (both sessions closed). -/
def c7Table : List (Option PSMoveController) :=
  (ControllerManagerImpl.init 2).m_controllers

/-- Closed session fixture as allocated in slot 0. -/
def c7Session0 : PSMoveController :=
  { tag := 0, psmove_id := 0, isOpen := false, devicePath := none
    pose := psmovePosef.zero, state := PSMoveState.zero }

/-- Counterexample to C7 as stated: enumerating devices 10 and 20 over a
fresh two-slot table with the open of device 10 failing, the pass leaves
the failed session Closed at temp position 0 and places device 20 at
position 1 — but the complete notification output of the pass is just the
connected notification for device 20: no connect-failure notification of
any kind is emitted for the failed open (the source logs only on success,
ControllerManager.cpp lines 241-246). -/
theorem c7_connect_failure_counterexample :
    (update_connected_controllers okOnlyB [10, 20] c7Table).2 =
      [Notification.controllerConnected 1] ∧
    (update_connected_controllers okOnlyB [10, 20] c7Table).1[0]? =
      some (some c7Session0) ∧
    (update_connected_controllers okOnlyB [10, 20] c7Table).1[1]? =
      some (some { tag := 1, psmove_id := 1, isOpen := true, devicePath := some 20
                   pose := psmovePosef.zero, state := PSMoveState.zero }) := by
  decide

/-- C7 (amended): when an enumerated identity matches no open session, a
closed session is found and the open attempt on it fails, the session stays
Closed, it is placed at temp position `p` (so the position is consumed and
the next enumerated identity gets `p + 1`) — and, amending the claim, *no*
notification is emitted for the failure (the source has no connect-failure
notification). -/
theorem c7_open_failure_amended
    (okFn : DeviceIdentity → Bool) (e : DeviceIdentity) (rest : List DeviceIdentity)
    (table temp : List (Option PSMoveController)) (n : Nat) (ns : List Notification)
    (i : Nat) (c : PSMoveController)
    (hopenmiss : find_open_controller_index table e = none)
    (hclosed : find_first_closed_controller_index table = some (i, c))
    (hfail : okFn e = false) :
    (c.setPSMoveID n).isOpen = false ∧
    update_connected_step1 okFn (e :: rest) table temp n ns =
      update_connected_step1 okFn rest (table.set i none)
        (temp.set n (some (c.setPSMoveID n))) (n + 1) ns := by
  have hspec := find_first_closed_controller_index_spec table i c hclosed
  constructor
  · simpa [PSMoveController.setPSMoveID] using hspec.2
  · simp [update_connected_step1, hopenmiss, hclosed, hfail,
      PSMoveController.openController]

/-- Witness for `c7_open_failure_amended` at the concrete fixture. -/
theorem c7_witness :
    (c7Session0.setPSMoveID 0).isOpen = false ∧
    update_connected_step1 okOnlyB [10, 20] c7Table (List.replicate 2 none) 0 [] =
      update_connected_step1 okOnlyB [20] (c7Table.set 0 none)
        ((List.replicate 2 none).set 0 (some (c7Session0.setPSMoveID 0))) 1 [] :=
  c7_open_failure_amended okOnlyB 10 [20] c7Table (List.replicate 2 none) 0 [] 0
    c7Session0 (by decide) (by decide) (by decide)

/-! ### Claim C5: a reconciliation pass permutes the pool -/

theorem poolView_cons_some (c : PSMoveController) (l : List (Option PSMoveController)) :
    poolView (some c :: l) = (c.tag, c.state, c.pose) :: poolView l := by
  simp [poolView]

theorem poolView_cons_none (l : List (Option PSMoveController)) :
    poolView (none :: l) = poolView l := by
  simp [poolView]

theorem poolView_replicate_none :
    ∀ (m : Nat), poolView (List.replicate m (none : Option PSMoveController)) = [] := by
  intro m
  induction m with
  | zero => rfl
  | succ m ih => rw [List.replicate_succ, poolView_cons_none, ih]

/-- `setPSMoveID` touches neither tag, state nor pose. -/
theorem setPSMoveID_proj (c : PSMoveController) (m : Nat) :
    (c.setPSMoveID m).tag = c.tag ∧ (c.setPSMoveID m).state = c.state ∧
    (c.setPSMoveID m).pose = c.pose :=
  ⟨rfl, rfl, rfl⟩

/-- `openController` touches neither tag, state nor pose. -/
theorem openController_proj (c : PSMoveController) (e : DeviceIdentity) (b : Bool) :
    ((c.openController e b).1).tag = c.tag ∧
    ((c.openController e b).1).state = c.state ∧
    ((c.openController e b).1).pose = c.pose := by
  cases b <;> simp [PSMoveController.openController]

/-- `close` touches neither tag, state nor pose. -/
theorem close_proj (c : PSMoveController) :
    c.close.tag = c.tag ∧ c.close.state = c.state ∧ c.close.pose = c.pose :=
  ⟨rfl, rfl, rfl⟩

/-- Consuming one table entry `(i, c)` into temp position `n` as the session
`c'` (equal to `c` except possibly in id / open state / binding) preserves
the combined pool view and the cursor invariants. -/
theorem step1_consume_aux
    (table temp : List (Option PSMoveController)) (n i : Nat)
    (c c' : PSMoveController)
    (hentry : table[i]? = some (some c))
    (hproj : c'.tag = c.tag ∧ c'.state = c.state ∧ c'.pose = c.pose)
    (hbudget : countSome table + n = temp.length)
    (hnone : ∀ k, n ≤ k → temp[k]? = some none ∨ temp[k]? = none)
    (hsome : ∀ k, k < n → ∃ d, temp[k]? = some (some d)) :
    countSome (table.set i none) + (n + 1) = (temp.set n (some c')).length ∧
    (∀ k, n + 1 ≤ k → (temp.set n (some c'))[k]? = some none ∨
      (temp.set n (some c'))[k]? = none) ∧
    (∀ k, k < n + 1 → ∃ d, (temp.set n (some c'))[k]? = some (some d)) ∧
    ((poolView (table.set i none) ++ poolView (temp.set n (some c'))).Perm
      (poolView table ++ poolView temp)) ∧
    (temp.set n (some c')).length = temp.length := by
  have hcount := countSome_set_none table i c hentry
  have hnlt : n < temp.length := by omega
  have htempn : temp[n]? = some none := by
    rcases hnone n (Nat.le_refl n) with h | h
    · exact h
    · rw [List.getElem?_eq_none_iff] at h
      omega
  refine ⟨?_, ?_, ?_, ?_, by simp⟩
  · simp only [List.length_set]
    omega
  · intro k hk
    rw [List.getElem?_set_ne (by omega)]
    exact hnone k (by omega)
  · intro k hk
    rcases Nat.lt_succ_iff_lt_or_eq.mp hk with hk | hk
    · rw [List.getElem?_set_ne (by omega)]
      exact hsome k hk
    · subst hk
      rw [List.getElem?_set_self hnlt]
      exact ⟨c', rfl⟩
  · have h1 : ((c.tag, c.state, c.pose) :: poolView (table.set i none)).Perm
        (poolView table) := poolView_set_none table i c hentry
    have h2 : (poolView (temp.set n (some c'))).Perm
        ((c.tag, c.state, c.pose) :: poolView temp) := by
      have := poolView_set_some temp n c' htempn
      rwa [hproj.1, hproj.2.1, hproj.2.2] at this
    exact (h2.append_left _).trans (List.perm_middle.trans (h1.append_right _))

/-- Step 1 neither creates nor destroys session objects and never touches
their decoded state or pose: the combined pool view of the remaining table
and the temp table is preserved; the temp table stays filled exactly below
the cursor and null from it upward, with fixed length. -/
theorem step1_poolView :
    ∀ (okFn : DeviceIdentity → Bool) (es : List DeviceIdentity)
      (table temp : List (Option PSMoveController)) (n : Nat) (ns : List Notification),
      countSome table + n = temp.length →
      (∀ k, n ≤ k → temp[k]? = some none ∨ temp[k]? = none) →
      (∀ k, k < n → ∃ d, temp[k]? = some (some d)) →
      (poolView (update_connected_step1 okFn es table temp n ns).1 ++
          poolView (update_connected_step1 okFn es table temp n ns).2.1).Perm
        (poolView table ++ poolView temp) ∧
      (∀ k, (update_connected_step1 okFn es table temp n ns).2.2.1 ≤ k →
        (update_connected_step1 okFn es table temp n ns).2.1[k]? = some none ∨
        (update_connected_step1 okFn es table temp n ns).2.1[k]? = none) ∧
      (∀ k, k < (update_connected_step1 okFn es table temp n ns).2.2.1 →
        ∃ d, (update_connected_step1 okFn es table temp n ns).2.1[k]? = some (some d)) ∧
      (update_connected_step1 okFn es table temp n ns).2.1.length = temp.length := by
  intro okFn es
  induction es with
  | nil =>
    intro table temp n ns hbudget hnone hsome
    exact ⟨List.Perm.refl _, hnone, hsome, rfl⟩
  | cons e rest ih =>
    intro table temp n ns hbudget hnone hsome
    rcases hfind : find_open_controller_index table e with _ | ⟨i, c⟩
    · rcases hclosed : find_first_closed_controller_index table with _ | ⟨i, c⟩
      · simp only [update_connected_step1, hfind, hclosed]
        exact ⟨List.Perm.refl _, hnone, hsome, trivial⟩
      · obtain ⟨hentry, _⟩ := find_first_closed_controller_index_spec table i c hclosed
        have hstep : update_connected_step1 okFn (e :: rest) table temp n ns =
            update_connected_step1 okFn rest (table.set i none)
              (temp.set n (some (((c.setPSMoveID n).openController e (okFn e)).1)))
              (n + 1)
              (if ((c.setPSMoveID n).openController e (okFn e)).2 then
                ns ++ [.controllerConnected i] else ns) := by
          rcases hopen : (c.setPSMoveID n).openController e (okFn e) with ⟨c2, opened⟩
          simp only [update_connected_step1, hfind, hclosed, hopen]
        have hproj : (((c.setPSMoveID n).openController e (okFn e)).1).tag = c.tag ∧
            (((c.setPSMoveID n).openController e (okFn e)).1).state = c.state ∧
            (((c.setPSMoveID n).openController e (okFn e)).1).pose = c.pose := by
          obtain ⟨ho1, ho2, ho3⟩ := openController_proj (c.setPSMoveID n) e (okFn e)
          exact ⟨ho1, ho2, ho3⟩
        obtain ⟨ha1, ha2, ha3, ha4, ha5⟩ :=
          step1_consume_aux table temp n i c _ hentry hproj hbudget hnone hsome
        obtain ⟨hr1, hr2, hr3, hr4⟩ := ih (table.set i none) _ (n + 1) _ ha1 ha2 ha3
        rw [hstep]
        exact ⟨hr1.trans ha4, hr2, hr3, hr4.trans ha5⟩
    · obtain ⟨hentry, _, _⟩ := find_open_controller_index_spec table e i c hfind
      have hstep : update_connected_step1 okFn (e :: rest) table temp n ns =
          update_connected_step1 okFn rest (table.set i none)
            (temp.set n (some (if n ≠ i then c.setPSMoveID n else c))) (n + 1)
            (if n ≠ i then ns ++ [.controllerMoved i n] else ns) := by
        by_cases hmv : n = i
        · subst hmv
          simp [update_connected_step1, hfind]
        · simp [update_connected_step1, hfind, hmv]
      have hproj : (if n ≠ i then c.setPSMoveID n else c).tag = c.tag ∧
          (if n ≠ i then c.setPSMoveID n else c).state = c.state ∧
          (if n ≠ i then c.setPSMoveID n else c).pose = c.pose := by
        by_cases hmv : n ≠ i <;> simp [hmv, PSMoveController.setPSMoveID]
      obtain ⟨ha1, ha2, ha3, ha4, ha5⟩ :=
        step1_consume_aux table temp n i c _ hentry hproj hbudget hnone hsome
      obtain ⟨hr1, hr2, hr3, hr4⟩ := ih (table.set i none) _ (n + 1) _ ha1 ha2 ha3
      rw [hstep]
      exact ⟨hr1.trans ha4, hr2, hr3, hr4.trans ha5⟩

/-- Step 2 appends every session left in the old table to the temp table:
the final temp table holds exactly the leftover sessions plus what temp
already held, is filled below the final cursor, and keeps its length. -/
theorem step2_poolView :
    ∀ (l : List (Option PSMoveController)) (j : Nat)
      (temp : List (Option PSMoveController)) (n : Nat) (ns : List Notification),
      countSome l + n = temp.length →
      (∀ k, n ≤ k → temp[k]? = some none ∨ temp[k]? = none) →
      (∀ k, k < n → ∃ d, temp[k]? = some (some d)) →
      (poolView (update_connected_step2 l j temp n ns).1).Perm
        (poolView l ++ poolView temp) ∧
      (update_connected_step2 l j temp n ns).2.1 = n + countSome l ∧
      (∀ k, k < (update_connected_step2 l j temp n ns).2.1 →
        ∃ d, (update_connected_step2 l j temp n ns).1[k]? = some (some d)) ∧
      (update_connected_step2 l j temp n ns).1.length = temp.length := by
  intro l
  induction l with
  | nil =>
    intro j temp n ns hbudget hnone hsome
    refine ⟨?_, ?_, hsome, rfl⟩
    · have h : (poolView temp).Perm
          (poolView ([] : List (Option PSMoveController)) ++ poolView temp) := by
        simp [poolView]
      exact h
    · simp [update_connected_step2, countSome]
  | cons oc rest ih =>
    intro j temp n ns hbudget hnone hsome
    rcases oc with _ | c
    · have hb : countSome rest + n = temp.length := by
        rw [countSome_cons_none] at hbudget; exact hbudget
      obtain ⟨h1, h2, h3, h4⟩ := ih (j + 1) temp n ns hb hnone hsome
      refine ⟨?_, ?_, h3, h4⟩
      · simpa [update_connected_step2, poolView_cons_none] using h1
      · simpa [update_connected_step2, countSome_cons_none] using h2
    · have hentry : (some c :: rest)[0]? = some (some c) := by simp
      have hproj : ((if c.getIsOpen then c.close else c).setPSMoveID n).tag = c.tag ∧
          ((if c.getIsOpen then c.close else c).setPSMoveID n).state = c.state ∧
          ((if c.getIsOpen then c.close else c).setPSMoveID n).pose = c.pose := by
        by_cases hop : c.getIsOpen = true <;>
          simp [hop, PSMoveController.setPSMoveID, PSMoveController.close]
      obtain ⟨ha1, ha2, ha3, ha4, ha5⟩ := step1_consume_aux (some c :: rest) temp n 0 c
        ((if c.getIsOpen then c.close else c).setPSMoveID n) hentry hproj hbudget hnone hsome
      have hb' : countSome rest + (n + 1) =
          (temp.set n (some ((if c.getIsOpen then c.close else c).setPSMoveID n))).length := by
        simpa [countSome_cons_none] using ha1
      have hstep : update_connected_step2 (some c :: rest) j temp n ns =
          update_connected_step2 rest (j + 1)
            (temp.set n (some ((if c.getIsOpen then c.close else c).setPSMoveID n))) (n + 1)
            (if c.getIsOpen then ns ++ [.closedStaleController j] else ns) := by
        by_cases hop : c.getIsOpen = true
        · simp [update_connected_step2, hop]
        · rw [Bool.not_eq_true] at hop
          simp [update_connected_step2, hop]
      obtain ⟨h1, h2, h3, h4⟩ := ih (j + 1) _ (n + 1) _ hb' ha2 ha3
      rw [hstep]
      refine ⟨?_, ?_, h3, h4.trans ha5⟩
      · refine h1.trans ?_
        have hcons : poolView ((some c :: rest).set 0 none) = poolView rest := by
          simp [poolView_cons_none]
        have := ha4
        rw [hcons] at this
        exact this
      · rw [h2, countSome_cons_some]
        omega

/-- C5: a reconciliation pass permutes the fixed pool of session objects:
afterwards the table still has exactly one session in every position, and
the multiset of session objects — identified by object tag, with their
decoded state and pose intact — is exactly the multiset before the pass;
only `psmove_id` and the open/closed binding can have changed. -/
theorem c5_reconciliation_permutes_pool
    (okFn : DeviceIdentity → Bool) (snapshot : List DeviceIdentity)
    (table : List (Option PSMoveController))
    (hall : ∀ x ∈ table, x.isSome) :
    (update_connected_controllers okFn snapshot table).1.length = table.length ∧
    (∀ x ∈ (update_connected_controllers okFn snapshot table).1, x.isSome) ∧
    (poolView (update_connected_controllers okFn snapshot table).1).Perm
      (poolView table) := by
  have hcount : countSome table = table.length := countSome_eq_length table hall
  rcases hs1 : update_connected_step1 okFn snapshot table
      (List.replicate table.length none) 0 [] with ⟨t1, temp1, n1, ns1⟩
  obtain ⟨hp1, hp2, hp3, hp4⟩ := step1_poolView okFn snapshot table
    (List.replicate table.length none) 0 []
    (by simp [hcount])
    (fun k _ => by
      rw [List.getElem?_replicate]
      by_cases hk : k < table.length
      · exact Or.inl (by simp [hk])
      · exact Or.inr (by simp [hk]))
    (fun k hk => absurd hk (Nat.not_lt_zero k))
  rw [hs1] at hp1 hp2 hp3 hp4
  have hbudget1 := step1_preserves_budget okFn snapshot table
    (List.replicate table.length none) 0 [] (by simp [hcount])
  rw [hs1] at hbudget1
  have hb1 : countSome t1 + n1 = temp1.length := hbudget1
  have hp1' : (poolView t1 ++ poolView temp1).Perm
      (poolView table ++ poolView (List.replicate table.length none)) := hp1
  have hp2' : ∀ k, n1 ≤ k → temp1[k]? = some none ∨ temp1[k]? = none := hp2
  have hp3' : ∀ k, k < n1 → ∃ d, temp1[k]? = some (some d) := hp3
  have hp4' : temp1.length = table.length := by
    have h : temp1.length = (List.replicate table.length
        (none : Option PSMoveController)).length := hp4
    simpa using h
  rcases hs2 : update_connected_step2 t1 0 temp1 n1 ns1 with ⟨temp2, n2, ns2⟩
  obtain ⟨hq1, hq2, hq3, hq4⟩ := step2_poolView t1 0 temp1 n1 ns1 hb1 hp2' hp3'
  rw [hs2] at hq1 hq2 hq3 hq4
  have hq1' : (poolView temp2).Perm (poolView t1 ++ poolView temp1) := hq1
  have hq2' : n2 = n1 + countSome t1 := hq2
  have hq3' : ∀ k, k < n2 → ∃ d, temp2[k]? = some (some d) := hq3
  have hq4' : temp2.length = temp1.length := hq4
  have hout : update_connected_controllers okFn snapshot table = (temp2, ns2) := by
    simp only [update_connected_controllers, hs1, hs2]
  rw [hout]
  refine ⟨?_, ?_, ?_⟩
  · show temp2.length = table.length
    rw [hq4', hp4']
  · show ∀ x ∈ temp2, x.isSome
    intro x hx
    obtain ⟨k, hk⟩ := List.mem_iff_getElem?.mp hx
    have hklt : k < temp2.length := by
      by_contra hge
      rw [List.getElem?_eq_none (by omega)] at hk
      exact absurd hk (by simp)
    obtain ⟨d, hd⟩ := hq3' k (by omega)
    rw [hk] at hd
    obtain rfl : x = some d := by simpa using hd
    simp
  · show (poolView temp2).Perm (poolView table)
    have h := hq1'.trans hp1'
    rw [poolView_replicate_none, List.append_nil] at h
    exact h

/-- Witness for `c5_reconciliation_permutes_pool` on the fresh two-slot
table and a one-device snapshot. -/
theorem c5_witness :
    (update_connected_controllers okAlways [10] c7Table).1.length = c7Table.length ∧
    (∀ x ∈ (update_connected_controllers okAlways [10] c7Table).1, x.isSome) ∧
    (poolView (update_connected_controllers okAlways [10] c7Table).1).Perm
      (poolView c7Table) :=
  c5_reconciliation_permutes_pool okAlways [10] c7Table (by decide)

/-! ### Claim C3: reconciliation idempotence -/

/-- The open scan skips a leading block of null entries, shifting indices. -/
theorem find_open_replicate_shift :
    ∀ (p : Nat) (l : List (Option PSMoveController)) (e : DeviceIdentity),
      find_open_controller_index (List.replicate p none ++ l) e =
        (find_open_controller_index l e).map (fun q => (q.1 + p, q.2)) := by
  intro p
  induction p with
  | zero =>
    intro l e
    simp only [List.replicate, List.nil_append]
    rcases find_open_controller_index l e with _ | ⟨i, c⟩ <;> simp
  | succ p ih =>
    intro l e
    rw [List.replicate_succ, List.cons_append]
    rw [show find_open_controller_index (none :: (List.replicate p none ++ l)) e =
      (find_open_controller_index (List.replicate p none ++ l) e).map
        (fun q => (q.1 + 1, q.2)) from rfl]
    rw [ih]
    rcases find_open_controller_index l e with _ | ⟨i, c⟩
    · simp
    · simp only [Option.map_some']
      rw [show i + p + 1 = i + (p + 1) from by omega]

/-- Reading the head of a `drop` through `getElem?`. -/
theorem drop_eq_cons_of_getElem? (l : List (Option PSMoveController)) (p : Nat)
    (a : Option PSMoveController) (h : l[p]? = some a) :
    l.drop p = a :: l.drop (p + 1) := by
  obtain ⟨hlt, hval⟩ := List.getElem?_eq_some_iff.mp h
  rw [List.drop_eq_getElem_cons hlt, hval]

/-- Conversely: a cons-shaped `drop` pins down the entry and the tail. -/
theorem getElem?_of_drop_cons (l : List DeviceIdentity) (p : Nat)
    (a : DeviceIdentity) (r : List DeviceIdentity) (h : l.drop p = a :: r) :
    l[p]? = some a ∧ l.drop (p + 1) = r := by
  have hlt : p < l.length := by
    by_contra hge
    rw [List.drop_eq_nil_of_le (by omega)] at h
    exact absurd h (by simp)
  rw [List.drop_eq_getElem_cons hlt] at h
  obtain ⟨h1, h2⟩ := List.cons.injEq .. ▸ h
  exact ⟨by rw [List.getElem?_eq_some_iff]; exact ⟨hlt, h1⟩, h2⟩

/-- Nulling position `p` of the table masked below `p` masks it below
`p + 1`. -/
theorem mask_succ (T : List (Option PSMoveController)) (p : Nat)
    (x : Option PSMoveController) (h : T[p]? = some x) :
    (List.replicate p (none : Option PSMoveController) ++ T.drop p).set p none =
      List.replicate (p + 1) none ++ T.drop (p + 1) := by
  rw [drop_eq_cons_of_getElem? T p x h]
  rw [List.set_append_right _ _ (by simp)]
  simp only [List.length_replicate, Nat.sub_self, List.set_cons_zero]
  rw [List.replicate_succ' p none, List.append_assoc]
  rfl

/-- Writing session `c` at position `p` of the temp table filled below `p`
with the prefix of `T` fills it below `p + 1`, provided `T` holds `c`
there. -/
theorem fill_succ (T : List (Option PSMoveController)) (p : Nat)
    (c : PSMoveController) (hlt : p < T.length) (h : T[p]? = some (some c)) :
    (T.take p ++ List.replicate (T.length - p) none).set p (some c) =
      T.take (p + 1) ++ List.replicate (T.length - (p + 1)) none := by
  have htk : (T.take p).length = p := by simp; omega
  rw [List.set_append_right _ _ (by omega)]
  rw [htk, Nat.sub_self]
  rw [show T.length - p = (T.length - (p + 1)) + 1 from by omega, List.replicate_succ]
  simp only [List.set_cons_zero]
  rw [List.take_succ, h]
  simp [List.append_assoc]

/-- Step 2 only ever appends to the notification list. -/
theorem step2_ns_mono :
    ∀ (l : List (Option PSMoveController)) (j : Nat)
      (temp : List (Option PSMoveController)) (n : Nat) (ns : List Notification)
      (x : Notification), x ∈ ns → x ∈ (update_connected_step2 l j temp n ns).2.2 := by
  intro l
  induction l with
  | nil => intro j temp n ns x hx; exact hx
  | cons oc rest ih =>
    intro j temp n ns x hx
    rcases oc with _ | c
    · exact ih (j + 1) temp n ns x hx
    · by_cases hop : c.getIsOpen = true
      · have hstep : update_connected_step2 (some c :: rest) j temp n ns =
            update_connected_step2 rest (j + 1)
              (temp.set n (some (c.close.setPSMoveID n))) (n + 1)
              (ns ++ [.closedStaleController j]) := by
          simp [update_connected_step2, hop]
        rw [hstep]
        exact ih _ _ _ _ x (List.mem_append_left _ hx)
      · rw [Bool.not_eq_true] at hop
        have hstep : update_connected_step2 (some c :: rest) j temp n ns =
            update_connected_step2 rest (j + 1)
              (temp.set n (some (c.setPSMoveID n))) (n + 1) ns := by
          simp [update_connected_step2, hop]
        rw [hstep]
        exact ih _ _ _ _ x hx

/-- Step 2 skips a leading block of null entries, advancing only the
original-index counter. -/
theorem step2_skip_replicate :
    ∀ (k : Nat) (l : List (Option PSMoveController)) (j : Nat)
      (temp : List (Option PSMoveController)) (n : Nat) (ns : List Notification),
      update_connected_step2 (List.replicate k none ++ l) j temp n ns =
        update_connected_step2 l (j + k) temp n ns := by
  intro k
  induction k with
  | zero => intro l j temp n ns; simp [List.replicate]
  | succ k ih =>
    intro l j temp n ns
    rw [List.replicate_succ, List.cons_append]
    rw [show update_connected_step2 (none :: (List.replicate k none ++ l)) j temp n ns =
      update_connected_step2 (List.replicate k none ++ l) (j + 1) temp n ns from rfl]
    rw [ih]
    rw [show j + 1 + k = j + (k + 1) from by omega]

/-- Running Step 1 over the tail of the snapshot on a canonical table — the
session bound to `S[p]` sits Open at position `p` — consumes each position
in place: no id change, no notification, table masked one position further
per step. -/
theorem step1_canonical (okFn : DeviceIdentity → Bool) (S : List DeviceIdentity)
    (T : List (Option PSMoveController))
    (hfront : ∀ (p : Nat) (e : DeviceIdentity), S[p]? = some e →
      ∃ c, T[p]? = some (some c) ∧ c.isOpen = true ∧ c.devicePath = some e) :
    ∀ (rest : List DeviceIdentity) (p : Nat) (ns : List Notification),
      p + rest.length = S.length → S.drop p = rest →
      update_connected_step1 okFn rest
        (List.replicate p none ++ T.drop p)
        (T.take p ++ List.replicate (T.length - p) none) p ns =
      (List.replicate S.length none ++ T.drop S.length,
       T.take S.length ++ List.replicate (T.length - S.length) none,
       S.length, ns) := by
  intro rest
  induction rest with
  | nil =>
    intro p ns hp hdrop
    have hps : p = S.length := by simpa using hp
    subst hps
    rfl
  | cons e rest ih =>
    intro p ns hp hdrop
    obtain ⟨hSp, hdrop'⟩ := getElem?_of_drop_cons S p e rest hdrop
    obtain ⟨c, hTp, hopen, hpath⟩ := hfront p e hSp
    have hplt : p < T.length := (List.getElem?_eq_some_iff.mp hTp).1
    have hfind : find_open_controller_index
        (List.replicate p none ++ T.drop p) e = some (p, c) := by
      rw [find_open_replicate_shift]
      have hhead : find_open_controller_index (T.drop p) e = some (0, c) := by
        rw [drop_eq_cons_of_getElem? T p (some c) hTp]
        simp [find_open_controller_index, PSMoveController.getIsOpen,
          PSMoveController.matchesDeviceEnumerator, hopen, hpath]
      rw [hhead]
      simp
    have hstep : update_connected_step1 okFn (e :: rest)
        (List.replicate p none ++ T.drop p)
        (T.take p ++ List.replicate (T.length - p) none) p ns =
        update_connected_step1 okFn rest
          ((List.replicate p none ++ T.drop p).set p none)
          ((T.take p ++ List.replicate (T.length - p) none).set p (some c))
          (p + 1) ns := by
      simp [update_connected_step1, hfind]
    rw [hstep, mask_succ T p (some c) hTp, fill_succ T p c hplt hTp]
    have hp' : p + (rest.length + 1) = S.length := by simpa using hp
    exact ih (p + 1) ns (by omega) hdrop'

/-- Running Step 2 over the orphan suffix of a canonical table — every
position from `n` on holds a Closed session already labelled with its
position — copies each session back unchanged with no notification. -/
theorem step2_canonical_orphans (T : List (Option PSMoveController)) :
    ∀ (m n : Nat) (ns : List Notification),
      n + m = T.length →
      (∀ k, n ≤ k → k < T.length → ∃ c, T[k]? = some (some c) ∧
        c.isOpen = false ∧ c.psmove_id = k) →
      update_connected_step2 (T.drop n) n
        (T.take n ++ List.replicate (T.length - n) none) n ns =
      (T, T.length, ns) := by
  intro m
  induction m with
  | zero =>
    intro n ns hm horphan
    have hn : n = T.length := by omega
    subst hn
    rw [List.drop_length]
    simp [update_connected_step2, List.take_length]
  | succ m ih =>
    intro n ns hm horphan
    have hnlt : n < T.length := by omega
    obtain ⟨c, hTn, hclosed, hid⟩ := horphan n (Nat.le_refl n) hnlt
    rw [drop_eq_cons_of_getElem? T n (some c) hTn]
    have hcc : c.setPSMoveID n = c := by
      cases c
      simp only [PSMoveController.setPSMoveID] at hid ⊢
      simp_all
    have hop : c.getIsOpen = false := by
      simpa [PSMoveController.getIsOpen] using hclosed
    have hstep : update_connected_step2 (some c :: T.drop (n + 1)) n
        (T.take n ++ List.replicate (T.length - n) none) n ns =
        update_connected_step2 (T.drop (n + 1)) (n + 1)
          ((T.take n ++ List.replicate (T.length - n) none).set n (some c))
          (n + 1) ns := by
      simp [update_connected_step2, hop, hcc]
    rw [hstep, fill_succ T n c hnlt hTn]
    exact ih (n + 1) ns (by omega) (fun k hk hk2 => horphan k (by omega) hk2)

/-- A reconciliation pass on a canonical table — the session bound to the
`p`-th snapshot identity Open at position `p`, and every later position a
Closed session labelled with its position — is a no-op: the table is
returned unchanged and no notification is emitted. -/
theorem reconcile_canonical_fixed (okFn : DeviceIdentity → Bool)
    (S : List DeviceIdentity) (T : List (Option PSMoveController))
    (hlen : S.length ≤ T.length)
    (hfront : ∀ (p : Nat) (e : DeviceIdentity), S[p]? = some e →
      ∃ c, T[p]? = some (some c) ∧ c.isOpen = true ∧ c.devicePath = some e)
    (horphan : ∀ k, S.length ≤ k → k < T.length → ∃ c, T[k]? = some (some c) ∧
      c.isOpen = false ∧ c.psmove_id = k) :
    update_connected_controllers okFn S T = (T, []) := by
  have h1 := step1_canonical okFn S T hfront S 0 [] (by simp) (by simp)
  have h0mask : List.replicate 0 (none : Option PSMoveController) ++ T.drop 0 = T := by
    simp [List.replicate]
  have h0fill : T.take 0 ++ List.replicate (T.length - 0) none =
      List.replicate T.length (none : Option PSMoveController) := by
    simp
  rw [h0mask, h0fill] at h1
  have h2 := step2_skip_replicate S.length (T.drop S.length) 0
    (T.take S.length ++ List.replicate (T.length - S.length) none) S.length []
  have h3 := step2_canonical_orphans T (T.length - S.length) S.length []
    (by omega) horphan
  rw [show (0 : Nat) + S.length = S.length from by omega] at h2
  simp only [update_connected_controllers, h1, h2, h3]

/-- When Step 1 finishes without a capacity-exceeded notification and every
attempted open succeeds, it consumes every enumerated identity: the cursor
advances by the snapshot length, position `n + q` of the temp table ends
holding an Open session bound to the `q`-th identity, and the temp entries
below the starting cursor are untouched. -/
theorem step1_no_capacity_shape :
    ∀ (okFn : DeviceIdentity → Bool) (es : List DeviceIdentity)
      (table temp : List (Option PSMoveController)) (n : Nat) (ns : List Notification),
      countSome table + n = temp.length →
      (∀ k, n ≤ k → temp[k]? = some none ∨ temp[k]? = none) →
      (∀ k, k < n → ∃ d, temp[k]? = some (some d)) →
      (∀ e ∈ es, okFn e = true) →
      Notification.capacityExceeded ∉
        (update_connected_step1 okFn es table temp n ns).2.2.2 →
      (update_connected_step1 okFn es table temp n ns).2.2.1 = n + es.length ∧
      (∀ (q : Nat) (e2 : DeviceIdentity), es[q]? = some e2 →
        ∃ d, (update_connected_step1 okFn es table temp n ns).2.1[n + q]? =
          some (some d) ∧ d.isOpen = true ∧ d.devicePath = some e2) ∧
      (∀ k, k < n →
        (update_connected_step1 okFn es table temp n ns).2.1[k]? = temp[k]?) := by
  intro okFn es
  induction es with
  | nil =>
    intro table temp n ns _ _ _ _ _
    refine ⟨by simp [update_connected_step1], ?_, fun k _ => rfl⟩
    intro q e2 hq
    simp at hq
  | cons e rest ih =>
    intro table temp n ns hbudget hnone hsome hok hnocap
    rcases hfind : find_open_controller_index table e with _ | ⟨i, c⟩
    · rcases hclosed : find_first_closed_controller_index table with _ | ⟨i, c⟩
      · exfalso
        apply hnocap
        simp only [update_connected_step1, hfind, hclosed]
        simp
      · obtain ⟨hentry, _⟩ := find_first_closed_controller_index_spec table i c hclosed
        have hoke : okFn e = true := hok e (by simp)
        have hstep : update_connected_step1 okFn (e :: rest) table temp n ns =
            update_connected_step1 okFn rest (table.set i none)
              (temp.set n (some (((c.setPSMoveID n).openController e (okFn e)).1)))
              (n + 1)
              (if ((c.setPSMoveID n).openController e (okFn e)).2 then
                ns ++ [.controllerConnected i] else ns) := by
          rcases hopen2 : (c.setPSMoveID n).openController e (okFn e) with ⟨c2, opened⟩
          simp only [update_connected_step1, hfind, hclosed, hopen2]
        have hc' : (((c.setPSMoveID n).openController e (okFn e)).1).isOpen = true ∧
            (((c.setPSMoveID n).openController e (okFn e)).1).devicePath = some e := by
          simp [PSMoveController.openController, hoke]
        have hnlt : n < temp.length := by
          have := countSome_set_none table i c hentry
          omega
        obtain ⟨ha1, ha2, ha3, _, _⟩ := step1_consume_aux table temp n i c
          (((c.setPSMoveID n).openController e (okFn e)).1) hentry
          (by
            obtain ⟨h1, h2, h3⟩ := openController_proj (c.setPSMoveID n) e (okFn e)
            exact ⟨h1, h2, h3⟩)
          hbudget hnone hsome
        rw [hstep] at hnocap ⊢
        obtain ⟨hi1, hi2, hi3⟩ := ih (table.set i none) _ (n + 1) _ ha1 ha2 ha3
          (fun x hx => hok x (by simp [hx])) hnocap
        refine ⟨?_, ?_, ?_⟩
        · rw [hi1]
          simp [List.length_cons]
          omega
        · intro q e2 hq
          cases q with
          | zero =>
            simp only [List.getElem?_cons_zero, Option.some.injEq] at hq
            subst hq
            refine ⟨((c.setPSMoveID n).openController e (okFn e)).1, ?_, hc'.1, hc'.2⟩
            simp only [Nat.add_zero]
            rw [hi3 n (by omega), List.getElem?_set_self hnlt]
          | succ q =>
            rw [show n + (q + 1) = (n + 1) + q from by omega]
            exact hi2 q e2 (by simpa using hq)
        · intro k hk
          rw [hi3 k (by omega), List.getElem?_set_ne (by omega)]
    · obtain ⟨hentry, hopen, hpath⟩ := find_open_controller_index_spec table e i c hfind
      have hstep : update_connected_step1 okFn (e :: rest) table temp n ns =
          update_connected_step1 okFn rest (table.set i none)
            (temp.set n (some (if n ≠ i then c.setPSMoveID n else c))) (n + 1)
            (if n ≠ i then ns ++ [.controllerMoved i n] else ns) := by
        by_cases hmv : n = i
        · subst hmv
          simp [update_connected_step1, hfind]
        · simp [update_connected_step1, hfind, hmv]
      have hc' : (if n ≠ i then c.setPSMoveID n else c).isOpen = true ∧
          (if n ≠ i then c.setPSMoveID n else c).devicePath = some e := by
        by_cases hmv : n ≠ i <;> simp [hmv, PSMoveController.setPSMoveID, hopen, hpath]
      have hnlt : n < temp.length := by
        have := countSome_set_none table i c hentry
        omega
      obtain ⟨ha1, ha2, ha3, _, _⟩ := step1_consume_aux table temp n i c
        (if n ≠ i then c.setPSMoveID n else c) hentry
        (by by_cases hmv : n ≠ i <;> simp [hmv, PSMoveController.setPSMoveID])
        hbudget hnone hsome
      rw [hstep] at hnocap ⊢
      obtain ⟨hi1, hi2, hi3⟩ := ih (table.set i none) _ (n + 1) _ ha1 ha2 ha3
        (fun x hx => hok x (by simp [hx])) hnocap
      refine ⟨?_, ?_, ?_⟩
      · rw [hi1]
        simp [List.length_cons]
        omega
      · intro q e2 hq
        cases q with
        | zero =>
          simp only [List.getElem?_cons_zero, Option.some.injEq] at hq
          subst hq
          refine ⟨(if n ≠ i then c.setPSMoveID n else c), ?_, hc'.1, hc'.2⟩
          simp only [Nat.add_zero]
          rw [hi3 n (by omega), List.getElem?_set_self hnlt]
        | succ q =>
          rw [show n + (q + 1) = (n + 1) + q from by omega]
          exact hi2 q e2 (by simpa using hq)
      · intro k hk
        rw [hi3 k (by omega), List.getElem?_set_ne (by omega)]

/-- Step 2 leaves the temp entries below the incoming cursor untouched and
fills the positions from the cursor to the final cursor with Closed
sessions labelled with their own position. -/
theorem step2_orphan_shape :
    ∀ (l : List (Option PSMoveController)) (j : Nat)
      (temp : List (Option PSMoveController)) (n : Nat) (ns : List Notification),
      countSome l + n = temp.length →
      (∀ k, n ≤ k → temp[k]? = some none ∨ temp[k]? = none) →
      (∀ k, k < n → (update_connected_step2 l j temp n ns).1[k]? = temp[k]?) ∧
      (∀ k, n ≤ k → k < (update_connected_step2 l j temp n ns).2.1 →
        ∃ d, (update_connected_step2 l j temp n ns).1[k]? = some (some d) ∧
          d.isOpen = false ∧ d.psmove_id = k) := by
  intro l
  induction l with
  | nil =>
    intro j temp n ns hbudget hnone
    refine ⟨fun k _ => rfl, ?_⟩
    intro k hk1 hk2
    exfalso
    have hk2' : k < n := hk2
    omega
  | cons oc rest ih =>
    intro j temp n ns hbudget hnone
    rcases oc with _ | c
    · have hb : countSome rest + n = temp.length := by
        rw [countSome_cons_none] at hbudget
        exact hbudget
      exact ih (j + 1) temp n ns hb hnone
    · have hb0 : countSome rest + 1 + n = temp.length := by
        rw [countSome_cons_some] at hbudget
        omega
      have hnlt : n < temp.length := by omega
      by_cases hop : c.getIsOpen = true
      · have hstep : update_connected_step2 (some c :: rest) j temp n ns =
            update_connected_step2 rest (j + 1)
              (temp.set n (some (c.close.setPSMoveID n))) (n + 1)
              (ns ++ [.closedStaleController j]) := by
          simp [update_connected_step2, hop]
        have hb' : countSome rest + (n + 1) =
            (temp.set n (some (c.close.setPSMoveID n))).length := by
          simp [List.length_set]
          omega
        have hnone' : ∀ k, n + 1 ≤ k →
            (temp.set n (some (c.close.setPSMoveID n)))[k]? = some none ∨
            (temp.set n (some (c.close.setPSMoveID n)))[k]? = none := by
          intro k hk
          rw [List.getElem?_set_ne (by omega)]
          exact hnone k (by omega)
        rw [hstep]
        obtain ⟨hi1, hi2⟩ := ih (j + 1) _ (n + 1) _ hb' hnone'
        refine ⟨?_, ?_⟩
        · intro k hk
          rw [hi1 k (by omega), List.getElem?_set_ne (by omega)]
        · intro k hk1 hk2
          rcases Nat.lt_or_ge k (n + 1) with hk3 | hk3
          · have hkn : k = n := by omega
            subst hkn
            refine ⟨c.close.setPSMoveID k, ?_, rfl, rfl⟩
            rw [hi1 k (by omega), List.getElem?_set_self hnlt]
          · exact hi2 k hk3 hk2
      · rw [Bool.not_eq_true] at hop
        have hstep : update_connected_step2 (some c :: rest) j temp n ns =
            update_connected_step2 rest (j + 1)
              (temp.set n (some (c.setPSMoveID n))) (n + 1) ns := by
          simp [update_connected_step2, hop]
        have hb' : countSome rest + (n + 1) =
            (temp.set n (some (c.setPSMoveID n))).length := by
          simp [List.length_set]
          omega
        have hnone' : ∀ k, n + 1 ≤ k →
            (temp.set n (some (c.setPSMoveID n)))[k]? = some none ∨
            (temp.set n (some (c.setPSMoveID n)))[k]? = none := by
          intro k hk
          rw [List.getElem?_set_ne (by omega)]
          exact hnone k (by omega)
        rw [hstep]
        obtain ⟨hi1, hi2⟩ := ih (j + 1) _ (n + 1) _ hb' hnone'
        refine ⟨?_, ?_⟩
        · intro k hk
          rw [hi1 k (by omega), List.getElem?_set_ne (by omega)]
        · intro k hk1 hk2
          rcases Nat.lt_or_ge k (n + 1) with hk3 | hk3
          · have hkn : k = n := by omega
            subst hkn
            refine ⟨c.setPSMoveID k, ?_, hop, rfl⟩
            rw [hi1 k (by omega), List.getElem?_set_self hnlt]
          · exact hi2 k hk3 hk2

/-- The stale-but-open one-slot table: its only session is Open and bound
to device 99, which is not in the snapshot. -/
def c3OpenX : PSMoveController :=
  { tag := 0, psmove_id := 0, isOpen := true, devicePath := some 99
    pose := psmovePosef.zero, state := PSMoveState.zero }

/-- Counterexample to C3 as stated: take the one-slot table holding an Open
session bound to device 99 and the snapshot `[10]`, with every transport
open succeeding.  The first run performs no open attempt at all (so "every
open attempt in the first run succeeded" holds vacuously): device 10 finds
no open match and no closed session — the stale session is still open — so
the run exhausts capacity and only afterwards closes the stale session.
The second run with the identical snapshot then opens the freed session:
it changes the slot table and emits a connected notification, contradicting
both halves of the claim. -/
theorem c3_idempotence_counterexample :
    (update_connected_controllers okAlways [10] [some c3OpenX]).2 =
      [Notification.capacityExceeded, Notification.closedStaleController 0] ∧
    (update_connected_controllers okAlways [10]
        (update_connected_controllers okAlways [10] [some c3OpenX]).1).2 =
      [Notification.controllerConnected 0] ∧
    (update_connected_controllers okAlways [10]
        (update_connected_controllers okAlways [10] [some c3OpenX]).1).1 ≠
      (update_connected_controllers okAlways [10] [some c3OpenX]).1 := by
  refine ⟨by decide, by decide, by decide⟩

/-- C3 (amended): if additionally the first run emits no capacity-exceeded
notification, then re-running reconciliation with the identical snapshot
(and no transport errors) returns the slot table exactly as the first run
left it and emits no notification of any kind. -/
theorem c3_idempotent_reconciliation_amended
    (okFn : DeviceIdentity → Bool) (S : List DeviceIdentity)
    (T : List (Option PSMoveController))
    (hall : ∀ x ∈ T, x.isSome)
    (hok : ∀ e ∈ S, okFn e = true)
    (hnocap : Notification.capacityExceeded ∉
      (update_connected_controllers okFn S T).2) :
    update_connected_controllers okFn S (update_connected_controllers okFn S T).1 =
      ((update_connected_controllers okFn S T).1, []) := by
  have hcount : countSome T = T.length := countSome_eq_length T hall
  rcases hs1 : update_connected_step1 okFn S T (List.replicate T.length none) 0 []
    with ⟨t1, temp1, n1, ns1⟩
  rcases hs2 : update_connected_step2 t1 0 temp1 n1 ns1 with ⟨temp2, n2, ns2⟩
  have hout : update_connected_controllers okFn S T = (temp2, ns2) := by
    simp only [update_connected_controllers, hs1, hs2]
  rw [hout] at hnocap ⊢
  have hnocap2 : Notification.capacityExceeded ∉ ns2 := hnocap
  have hnocap1 : Notification.capacityExceeded ∉ ns1 := by
    intro hmem
    apply hnocap2
    have h := step2_ns_mono t1 0 temp1 n1 ns1 _ hmem
    rw [hs2] at h
    exact h
  have hbudget0 : countSome T + 0 =
      (List.replicate T.length (none : Option PSMoveController)).length := by
    simp [hcount]
  have hnone0 : ∀ k, 0 ≤ k →
      (List.replicate T.length (none : Option PSMoveController))[k]? = some none ∨
      (List.replicate T.length (none : Option PSMoveController))[k]? = none := by
    intro k _
    rw [List.getElem?_replicate]
    by_cases hk : k < T.length
    · exact Or.inl (by simp [hk])
    · exact Or.inr (by simp [hk])
  have hsome0 : ∀ k, k < 0 →
      ∃ d, (List.replicate T.length (none : Option PSMoveController))[k]? =
        some (some d) :=
    fun k hk => absurd hk (Nat.not_lt_zero k)
  have hnocap1' : Notification.capacityExceeded ∉
      (update_connected_step1 okFn S T (List.replicate T.length none) 0 []).2.2.2 := by
    rw [hs1]
    exact hnocap1
  obtain ⟨ha1, ha2, _⟩ := step1_no_capacity_shape okFn S T
    (List.replicate T.length none) 0 [] hbudget0 hnone0 hsome0 hok hnocap1'
  rw [hs1] at ha1 ha2
  have hn1 : n1 = S.length := by simpa using ha1
  have hfront1 : ∀ (p : Nat) (e : DeviceIdentity), S[p]? = some e →
      ∃ c, temp1[p]? = some (some c) ∧ c.isOpen = true ∧ c.devicePath = some e := by
    intro p e hp
    obtain ⟨d, hd, hdo, hdp⟩ := ha2 p e hp
    exact ⟨d, by simpa using hd, hdo, hdp⟩
  have hb := step1_preserves_budget okFn S T (List.replicate T.length none) 0 [] hbudget0
  rw [hs1] at hb
  have hb1 : countSome t1 + n1 = temp1.length := hb
  obtain ⟨_, hp2, _, hp4⟩ := step1_poolView okFn S T (List.replicate T.length none)
    0 [] hbudget0 hnone0 hsome0
  rw [hs1] at hp2 hp4
  have hp2' : ∀ k, n1 ≤ k → temp1[k]? = some none ∨ temp1[k]? = none := hp2
  have hp4' : temp1.length = T.length := by
    have h : temp1.length =
        (List.replicate T.length (none : Option PSMoveController)).length := hp4
    simpa using h
  obtain ⟨ho1, ho2⟩ := step2_orphan_shape t1 0 temp1 n1 ns1 hb1 hp2'
  rw [hs2] at ho1 ho2
  have ho1' : ∀ k, k < n1 → temp2[k]? = temp1[k]? := ho1
  have ho2' : ∀ k, n1 ≤ k → k < n2 → ∃ d, temp2[k]? = some (some d) ∧
      d.isOpen = false ∧ d.psmove_id = k := ho2
  have hsome1 : ∀ k, k < n1 → ∃ d, temp1[k]? = some (some d) := by
    intro k hk
    have hklt : k < S.length := by omega
    obtain ⟨d, hd, _, _⟩ := ha2 k S[k] (List.getElem?_eq_getElem hklt)
    exact ⟨d, by simpa using hd⟩
  obtain ⟨_, hq2, _, hq4⟩ := step2_poolView t1 0 temp1 n1 ns1 hb1 hp2' hsome1
  rw [hs2] at hq2 hq4
  have hq2' : n2 = n1 + countSome t1 := hq2
  have hq4' : temp2.length = temp1.length := hq4
  show update_connected_controllers okFn S temp2 = (temp2, [])
  refine reconcile_canonical_fixed okFn S temp2 (by omega) ?_ ?_
  · intro p e hp
    obtain ⟨c, hc, hco, hcp⟩ := hfront1 p e hp
    have hplt : p < n1 := by
      have := (List.getElem?_eq_some_iff.mp hp).1
      omega
    exact ⟨c, by rw [ho1' p hplt]; exact hc, hco, hcp⟩
  · intro k hk1 hk2
    exact ho2' k (by omega) (by omega)

/-- Witness for `c3_idempotent_reconciliation_amended`: on the fresh
two-slot table and snapshot `[10]` the second run returns the first run's
table unchanged with no notifications. -/
theorem c3_witness :
    update_connected_controllers okAlways [10]
        (update_connected_controllers okAlways [10] c7Table).1 =
      ((update_connected_controllers okAlways [10] c7Table).1, []) :=
  c3_idempotent_reconciliation_amended okAlways [10] c7Table (by decide) (by decide)
    (by decide)

/-! ### Claim C6: identity stability under pure reordering -/

/-- Whether a slot entry is an open session bound to one of the given
identities (the sessions already consumed by the enumeration prefix). -/
def pathIn (ids : List DeviceIdentity) (oc : Option PSMoveController) : Bool :=
  match oc with
  | some c => c.isOpen &&
      (match c.devicePath with
       | some e => decide (e ∈ ids)
       | none => false)
  | none => false

/-- The table as Step 1 has left it after consuming the open sessions bound
to the given identities: each such session's slot is nulled, everything
else untouched. -/
def maskOpenIn (ids : List DeviceIdentity) (l : List (Option PSMoveController)) :
    List (Option PSMoveController) :=
  l.map (fun oc => if pathIn ids oc then none else oc)

theorem maskOpenIn_nil (l : List (Option PSMoveController)) :
    maskOpenIn [] l = l := by
  have h : ∀ oc : Option PSMoveController,
      (if pathIn [] oc then none else oc) = oc := by
    intro oc
    rcases oc with _ | c
    · simp [pathIn]
    · rcases hdp : c.devicePath with _ | e <;> simp [pathIn, hdp]
  calc l.map (fun oc => if pathIn [] oc then none else oc)
      = l.map id := List.map_congr_left (fun oc _ => h oc)
    _ = l := List.map_id l

theorem maskOpenIn_length (ids : List DeviceIdentity)
    (l : List (Option PSMoveController)) :
    (maskOpenIn ids l).length = l.length := by
  simp [maskOpenIn]

theorem pathIn_false_of_not_mem (ids : List DeviceIdentity) (c : PSMoveController)
    (e : DeviceIdentity) (hdp : c.devicePath = some e) (he : e ∉ ids) :
    pathIn ids (some c) = false := by
  simp [pathIn, hdp, he]

theorem maskOpenIn_entry (ids : List DeviceIdentity)
    (T : List (Option PSMoveController)) (k : Nat) (d : PSMoveController)
    (hk : T[k]? = some (some d)) (hp : pathIn ids (some d) = false) :
    (maskOpenIn ids T)[k]? = some (some d) := by
  simp [maskOpenIn, List.getElem?_map, hk, hp]

theorem maskOpenIn_entry_inv (ids : List DeviceIdentity)
    (T : List (Option PSMoveController)) (k : Nat) (d : PSMoveController)
    (h : (maskOpenIn ids T)[k]? = some (some d)) :
    T[k]? = some (some d) ∧ pathIn ids (some d) = false := by
  simp only [maskOpenIn, List.getElem?_map] at h
  rcases hk : T[k]? with _ | oc
  · rw [hk] at h
    simp at h
  · rw [hk] at h
    simp only [Option.map_some', Option.some.injEq] at h
    by_cases hp : pathIn ids oc = true
    · rw [if_pos hp] at h
      exact absurd h (by simp)
    · rw [Bool.not_eq_true] at hp
      rw [hp] at h
      simp only [Bool.false_eq_true, if_false] at h
      subst h
      exact ⟨rfl, hp⟩

/-- Under the at-most-one-open-session-per-identity invariant, the open
scan on the full table finds exactly the open session bound to `e`. -/
theorem find_unique (T : List (Option PSMoveController)) (e : DeviceIdentity)
    (j : Nat) (c : PSMoveController)
    (huniq : ∀ (j2 k : Nat) (c2 d : PSMoveController) (e2 : DeviceIdentity),
      T[j2]? = some (some c2) → T[k]? = some (some d) → c2.isOpen = true →
      d.isOpen = true → c2.devicePath = some e2 → d.devicePath = some e2 → j2 = k)
    (hj : T[j]? = some (some c)) (hopen : c.isOpen = true)
    (hpath : c.devicePath = some e) :
    find_open_controller_index T e = some (j, c) := by
  refine find_open_controller_index_of T e j c hj hopen hpath ?_
  intro k d hk hd hdo hdp
  have := huniq k j d c e hd hj hdo hopen hdp hpath
  omega

/-- Masking out sessions bound to identities other than `e` does not change
what the open scan finds for `e`. -/
theorem find_mask (T : List (Option PSMoveController)) (ids : List DeviceIdentity)
    (e : DeviceIdentity) (j : Nat) (c : PSMoveController)
    (hfind : find_open_controller_index T e = some (j, c))
    (he : e ∉ ids)
    (huniq : ∀ (j2 k : Nat) (c2 d : PSMoveController) (e2 : DeviceIdentity),
      T[j2]? = some (some c2) → T[k]? = some (some d) → c2.isOpen = true →
      d.isOpen = true → c2.devicePath = some e2 → d.devicePath = some e2 → j2 = k) :
    find_open_controller_index (maskOpenIn ids T) e = some (j, c) := by
  obtain ⟨hj, hopen, hpath⟩ := find_open_controller_index_spec T e j c hfind
  refine find_open_controller_index_of (maskOpenIn ids T) e j c ?_ hopen hpath ?_
  · exact maskOpenIn_entry ids T j c hj (pathIn_false_of_not_mem ids c e hpath he)
  · intro k d hk hd hdo hdp
    obtain ⟨hTk, _⟩ := maskOpenIn_entry_inv ids T k d hd
    have := huniq k j d c e hTk hj hdo hopen hdp hpath
    omega

/-- An element of a `take` prefix occurs at an index below the cut. -/
theorem mem_take_exists (S : List DeviceIdentity) (p : Nat) (e : DeviceIdentity)
    (h : e ∈ S.take p) : ∃ q, q < p ∧ S[q]? = some e := by
  obtain ⟨q, hq⟩ := List.mem_iff_getElem?.mp h
  have hqp : q < p := by
    by_contra hge
    rw [List.getElem?_take_eq_none (by omega)] at hq
    exact absurd hq (by simp)
  exact ⟨q, hqp, by rw [← List.getElem?_take_of_lt hqp]; exact hq⟩

/-- In a duplicate-free snapshot, the `p`-th identity is not among the
first `p`. -/
theorem not_mem_take_self (S : List DeviceIdentity) (p : Nat) (e : DeviceIdentity)
    (hnodup : S.Nodup) (hp : S[p]? = some e) : e ∉ S.take p := by
  intro hmem
  obtain ⟨q, hqp, hq⟩ := mem_take_exists S p e hmem
  have hql : q < S.length := by
    by_contra hge
    rw [List.getElem?_eq_none (by omega)] at hq
    exact absurd hq (by simp)
  have := List.getElem?_inj hql hnodup (hq.trans hp.symm)
  omega

/-- Counting in a list extended by one element. -/
theorem count_append_single (ns : List Notification) (x y : Notification) :
    (ns ++ [x]).count y = ns.count y + (if x = y then 1 else 0) := by
  rw [List.count_append, List.count_singleton]
  by_cases h : x = y <;> simp [h]

/-- Consuming the open session bound to the `p`-th snapshot identity turns
the table masked below `p` into the table masked below `p + 1`. -/
theorem maskOpenIn_step (S : List DeviceIdentity) (T : List (Option PSMoveController))
    (p j0 : Nat) (e : DeviceIdentity) (c0 : PSMoveController)
    (hp : S[p]? = some e)
    (hj : T[j0]? = some (some c0)) (hopen : c0.isOpen = true)
    (hpath : c0.devicePath = some e)
    (huniq : ∀ (j2 k : Nat) (c2 d : PSMoveController) (e2 : DeviceIdentity),
      T[j2]? = some (some c2) → T[k]? = some (some d) → c2.isOpen = true →
      d.isOpen = true → c2.devicePath = some e2 → d.devicePath = some e2 → j2 = k) :
    maskOpenIn (S.take (p + 1)) T = (maskOpenIn (S.take p) T).set j0 none := by
  apply List.ext_getElem?
  intro k
  by_cases hk : k = j0
  · subst hk
    have hklt : k < (maskOpenIn (S.take p) T).length := by
      rw [maskOpenIn_length]
      exact (List.getElem?_eq_some_iff.mp hj).1
    rw [List.getElem?_set_self hklt]
    have hmem : e ∈ S.take (p + 1) := by
      rw [List.take_succ, hp]
      simp
    have hpt : pathIn (S.take (p + 1)) (some c0) = true := by
      simp [pathIn, hopen, hpath, hmem]
    simp [maskOpenIn, List.getElem?_map, hj, hpt]
  · rw [List.getElem?_set_ne (by omega)]
    simp only [maskOpenIn, List.getElem?_map]
    rcases hTk : T[k]? with _ | oc
    · rfl
    · rcases oc with _ | d
      · simp [pathIn]
      · by_cases hdo : d.isOpen = true
        · rcases hdp : d.devicePath with _ | e2
          · simp [pathIn, hdp]
          · by_cases hm : e2 ∈ S.take p
            · have hm1 : e2 ∈ S.take (p + 1) := by
                rw [List.take_succ]
                exact List.mem_append_left _ hm
              simp [pathIn, hdo, hdp, hm, hm1]
            · have hm1 : e2 ∉ S.take (p + 1) := by
                intro hmm
                rw [List.take_succ, hp] at hmm
                simp only [Option.toList_some, List.mem_append,
                  List.mem_singleton] at hmm
                rcases hmm with hmm | hmm
                · exact hm hmm
                · subst hmm
                  exact hk (huniq k j0 d c0 e2 hTk hj hdo hopen hdp hpath)
              simp [pathIn, hdo, hdp, hm, hm1]
        · rw [Bool.not_eq_true] at hdo
          simp [pathIn, hdo]

/-- `setPSMoveID` with the id the session already carries is the
identity. -/
theorem setPSMoveID_self (c : PSMoveController) (m : Nat) (h : c.psmove_id = m) :
    c.setPSMoveID m = c := by
  cases c
  simp only [PSMoveController.setPSMoveID] at h ⊢
  simp_all

/-- Step 1 under pure reordering: every enumerated identity `S[p+q]` is
matched by the open session the scan finds for it on the original table;
that session is re-labelled with its enumeration position and placed
there; a moved notification is appended exactly when the session's
original index differs from its enumeration position; the leftover table
is the original masked at every consumed session. -/
theorem step1_reorder (okFn : DeviceIdentity → Bool) (S : List DeviceIdentity)
    (T : List (Option PSMoveController))
    (hwf : ∀ (j : Nat) (c : PSMoveController), T[j]? = some (some c) → c.psmove_id = j)
    (huniq : ∀ (j2 k : Nat) (c2 d : PSMoveController) (e2 : DeviceIdentity),
      T[j2]? = some (some c2) → T[k]? = some (some d) → c2.isOpen = true →
      d.isOpen = true → c2.devicePath = some e2 → d.devicePath = some e2 → j2 = k)
    (hnodup : S.Nodup)
    (hopenS : ∀ e : DeviceIdentity, e ∈ S →
      ∃ (j : Nat) (c : PSMoveController), T[j]? = some (some c) ∧
        c.isOpen = true ∧ c.devicePath = some e) :
    ∀ (rest : List DeviceIdentity) (p : Nat) (temp : List (Option PSMoveController))
      (ns : List Notification),
      S.drop p = rest →
      countSome (maskOpenIn (S.take p) T) + p = countSome T →
      temp.length = T.length →
      (∀ k, k < p →
        (update_connected_step1 okFn rest (maskOpenIn (S.take p) T)
          temp p ns).2.1[k]? = temp[k]?) ∧
      (∀ (q j : Nat) (e : DeviceIdentity) (c : PSMoveController),
        rest[q]? = some e → find_open_controller_index T e = some (j, c) →
        (update_connected_step1 okFn rest (maskOpenIn (S.take p) T)
          temp p ns).2.1[p + q]? = some (some (c.setPSMoveID (p + q)))) ∧
      (∀ (i p2 : Nat), p2 < p →
        ((update_connected_step1 okFn rest (maskOpenIn (S.take p) T)
          temp p ns).2.2.2).count (.controllerMoved i p2) =
          ns.count (.controllerMoved i p2)) ∧
      (∀ (q j : Nat) (e : DeviceIdentity) (c : PSMoveController) (i : Nat),
        rest[q]? = some e → find_open_controller_index T e = some (j, c) →
        ((update_connected_step1 okFn rest (maskOpenIn (S.take p) T)
          temp p ns).2.2.2).count (.controllerMoved i (p + q)) =
          ns.count (.controllerMoved i (p + q)) +
            (if i = j ∧ j ≠ p + q then 1 else 0)) ∧
      (∀ x ∈ (update_connected_step1 okFn rest (maskOpenIn (S.take p) T)
          temp p ns).2.2.2, x ∈ ns ∨
        ∃ (q j : Nat) (e : DeviceIdentity) (c : PSMoveController),
          rest[q]? = some e ∧ find_open_controller_index T e = some (j, c) ∧
          x = .controllerMoved j (p + q) ∧ j ≠ p + q) ∧
      ((update_connected_step1 okFn rest (maskOpenIn (S.take p) T)
          temp p ns).1 = maskOpenIn (S.take (p + rest.length)) T) ∧
      ((update_connected_step1 okFn rest (maskOpenIn (S.take p) T)
          temp p ns).2.2.1 = p + rest.length) := by
  intro rest
  induction rest with
  | nil =>
    intro p temp ns hdrop hinv hlen
    refine ⟨fun k _ => rfl, ?_, fun i p2 _ => rfl, ?_, ?_,
      by simp [update_connected_step1], by simp [update_connected_step1]⟩
    · intro q j e c hq
      simp at hq
    · intro q j e c i hq
      simp at hq
    · intro x hx
      exact Or.inl hx
  | cons e rest ih =>
    intro p temp ns hdrop hinv hlen
    obtain ⟨hp, hdrop'⟩ := getElem?_of_drop_cons S p e rest hdrop
    have hemem : e ∈ S := List.mem_iff_getElem?.mpr ⟨p, hp⟩
    obtain ⟨j0, c0, hj0, hopen0, hpath0⟩ := hopenS e hemem
    have hfind0 : find_open_controller_index T e = some (j0, c0) :=
      find_unique T e j0 c0 huniq hj0 hopen0 hpath0
    have henot : e ∉ S.take p := not_mem_take_self S p e hnodup hp
    have hfindm : find_open_controller_index (maskOpenIn (S.take p) T) e =
        some (j0, c0) := find_mask T (S.take p) e j0 c0 hfind0 henot huniq
    have hmaskj : (maskOpenIn (S.take p) T)[j0]? = some (some c0) :=
      maskOpenIn_entry (S.take p) T j0 c0 hj0
        (pathIn_false_of_not_mem (S.take p) c0 e hpath0 henot)
    have hcount := countSome_set_none (maskOpenIn (S.take p) T) j0 c0 hmaskj
    have hplt : p < temp.length := by
      have h1 := countSome_le_length T
      omega
    have hmaskstep : maskOpenIn (S.take (p + 1)) T =
        (maskOpenIn (S.take p) T).set j0 none :=
      maskOpenIn_step S T p j0 e c0 hp hj0 hopen0 hpath0 huniq
    have hstep : update_connected_step1 okFn (e :: rest) (maskOpenIn (S.take p) T)
        temp p ns =
        update_connected_step1 okFn rest (maskOpenIn (S.take (p + 1)) T)
          (temp.set p (some (c0.setPSMoveID p))) (p + 1)
          (if p ≠ j0 then ns ++ [.controllerMoved j0 p] else ns) := by
      rw [hmaskstep]
      by_cases hmv : p = j0
      · subst hmv
        simp [update_connected_step1, hfindm,
          setPSMoveID_self c0 p (hwf p c0 hj0)]
      · simp [update_connected_step1, hfindm, hmv]
    have hinv' : countSome (maskOpenIn (S.take (p + 1)) T) + (p + 1) =
        countSome T := by
      rw [hmaskstep]
      omega
    have hlen' : (temp.set p (some (c0.setPSMoveID p))).length = T.length := by
      simp [hlen]
    obtain ⟨hi1, hi2, hi3, hi4, hi5, hi6, hi7⟩ := ih (p + 1)
      (temp.set p (some (c0.setPSMoveID p)))
      (if p ≠ j0 then ns ++ [.controllerMoved j0 p] else ns)
      hdrop' hinv' hlen'
    rw [hstep]
    refine ⟨?_, ?_, ?_, ?_, ?_, ?_, ?_⟩
    · intro k hk
      rw [hi1 k (by omega), List.getElem?_set_ne (by omega)]
    · intro q j e2 c hq hfindq
      cases q with
      | zero =>
        simp only [List.getElem?_cons_zero, Option.some.injEq] at hq
        subst hq
        rw [hfind0] at hfindq
        simp only [Option.some.injEq, Prod.mk.injEq] at hfindq
        obtain ⟨hjj, hcc⟩ := hfindq
        subst hjj
        subst hcc
        simp only [Nat.add_zero]
        rw [hi1 p (by omega), List.getElem?_set_self hplt]
      | succ q =>
        rw [show p + (q + 1) = (p + 1) + q from by omega]
        exact hi2 q j e2 c (by simpa using hq) hfindq
    · intro i p2 hp2
      rw [hi3 i p2 (by omega)]
      by_cases hmv : p ≠ j0
      · rw [if_pos hmv, count_append_single,
          if_neg (by
            intro hcon
            simp only [Notification.controllerMoved.injEq] at hcon
            omega)]
        omega
      · rw [if_neg hmv]
    · intro q j e2 c i hq hfindq
      cases q with
      | zero =>
        simp only [List.getElem?_cons_zero, Option.some.injEq] at hq
        subst hq
        rw [hfind0] at hfindq
        simp only [Option.some.injEq, Prod.mk.injEq] at hfindq
        obtain ⟨hjj, hcc⟩ := hfindq
        subst hjj
        subst hcc
        simp only [Nat.add_zero]
        rw [hi3 i p (by omega)]
        by_cases hmv : p ≠ j0
        · rw [if_pos hmv, count_append_single]
          by_cases hij : i = j0
          · subst hij
            rw [if_pos rfl, if_pos ⟨rfl, by omega⟩]
          · rw [if_neg (by
                intro hcon
                simp only [Notification.controllerMoved.injEq] at hcon
                exact hij hcon.1.symm),
              if_neg (by
                intro hcon
                exact hij hcon.1)]
        · rw [if_neg hmv, if_neg (by
            intro hcon
            exact hcon.2 (by omega))]
          omega
      | succ q =>
        rw [show p + (q + 1) = (p + 1) + q from by omega]
        have hnsq : (if p ≠ j0 then ns ++ [Notification.controllerMoved j0 p]
            else ns).count (Notification.controllerMoved i ((p + 1) + q)) =
            ns.count (Notification.controllerMoved i ((p + 1) + q)) := by
          by_cases hmv : p ≠ j0
          · rw [if_pos hmv, count_append_single,
              if_neg (by
                intro hcon
                simp only [Notification.controllerMoved.injEq] at hcon
                omega)]
            omega
          · rw [if_neg hmv]
        rw [hi4 q j e2 c i (by simpa using hq) hfindq, hnsq]
    · intro x hx
      rcases hi5 x hx with hx' | ⟨q, j, e2, c, hq, hfindq, hxeq, hne⟩
      · by_cases hmv : p ≠ j0
        · rw [if_pos hmv] at hx'
          rcases List.mem_append.mp hx' with hx'' | hx''
          · exact Or.inl hx''
          · right
            refine ⟨0, j0, e, c0, by simp, hfind0, ?_, by omega⟩
            simp only [Nat.add_zero]
            simpa using hx''
        · rw [if_neg hmv] at hx'
          exact Or.inl hx'
      · right
        refine ⟨q + 1, j, e2, c, by simpa using hq, hfindq, ?_, by omega⟩
        rw [hxeq]
        congr 1
        omega
    · rw [hi6]
      have harith : (p + 1) + rest.length = p + (e :: rest).length := by
        simp only [List.length_cons]
        omega
      rw [harith]
    · rw [hi7]
      simp only [List.length_cons]
      omega

/-- Step 2 over a table holding no open session emits no notification and
leaves every temp entry below the cursor untouched. -/
theorem step2_no_stale :
    ∀ (l : List (Option PSMoveController)) (j : Nat)
      (temp : List (Option PSMoveController)) (n : Nat) (ns : List Notification),
      (∀ (k : Nat) (d : PSMoveController), l[k]? = some (some d) → d.isOpen = false) →
      (update_connected_step2 l j temp n ns).2.2 = ns ∧
      (∀ k, k < n → (update_connected_step2 l j temp n ns).1[k]? = temp[k]?) := by
  intro l
  induction l with
  | nil =>
    intro j temp n ns _
    exact ⟨rfl, fun k _ => rfl⟩
  | cons oc rest ih =>
    intro j temp n ns hclosed
    rcases oc with _ | c
    · exact ih (j + 1) temp n ns (fun k d hk => hclosed (k + 1) d (by simpa using hk))
    · have hc : c.isOpen = false := hclosed 0 c (by simp)
      have hop : c.getIsOpen = false := hc
      have hstep : update_connected_step2 (some c :: rest) j temp n ns =
          update_connected_step2 rest (j + 1)
            (temp.set n (some (c.setPSMoveID n))) (n + 1) ns := by
        simp [update_connected_step2, hop]
      rw [hstep]
      obtain ⟨h1, h2⟩ := ih (j + 1) _ (n + 1) ns
        (fun k d hk => hclosed (k + 1) d (by simpa using hk))
      exact ⟨h1, fun k hk => by
        rw [h2 k (by omega), List.getElem?_set_ne (by omega)]⟩

/-- C6: when the snapshot is a duplicate-free reordering of the identities
bound by the open sessions of a well-formed table (ids equal to positions,
one open session per identity, bound identity present exactly when open),
one reconciliation pass keeps every previously open session Open and bound
to the same identity, relocated to its enumeration position with its
`psmove_id` set to that position; a moved notification is emitted exactly
once for each open session whose position changed, never for one whose
position is unchanged, and every moved notification in the pass arises
this way. -/
theorem c6_identity_stability_under_reordering
    (okFn : DeviceIdentity → Bool) (S : List DeviceIdentity)
    (T : List (Option PSMoveController))
    (hwf : ∀ (j : Nat) (c : PSMoveController), T[j]? = some (some c) → c.psmove_id = j)
    (huniq : ∀ (j2 k : Nat) (c2 d : PSMoveController) (e2 : DeviceIdentity),
      T[j2]? = some (some c2) → T[k]? = some (some d) → c2.isOpen = true →
      d.isOpen = true → c2.devicePath = some e2 → d.devicePath = some e2 → j2 = k)
    (hbound : ∀ (j : Nat) (c : PSMoveController), T[j]? = some (some c) →
      c.isOpen = true → ∃ e, c.devicePath = some e)
    (hnodup : S.Nodup)
    (hseteq : ∀ e : DeviceIdentity, e ∈ S ↔
      ∃ (j : Nat) (c : PSMoveController), T[j]? = some (some c) ∧
        c.isOpen = true ∧ c.devicePath = some e) :
    (∀ (j : Nat) (c : PSMoveController), T[j]? = some (some c) → c.isOpen = true →
      ∃ (p : Nat) (e : DeviceIdentity), S[p]? = some e ∧ c.devicePath = some e ∧
        (update_connected_controllers okFn S T).1[p]? =
          some (some (c.setPSMoveID p))) ∧
    (∀ (i p : Nat) (e : DeviceIdentity) (c : PSMoveController),
      S[p]? = some e → T[i]? = some (some c) → c.isOpen = true →
      c.devicePath = some e →
      ((update_connected_controllers okFn S T).2).count (.controllerMoved i p) =
        (if i = p then 0 else 1)) ∧
    (∀ (i p : Nat), Notification.controllerMoved i p ∈
        (update_connected_controllers okFn S T).2 →
      ∃ (e : DeviceIdentity) (c : PSMoveController), S[p]? = some e ∧
        T[i]? = some (some c) ∧ c.isOpen = true ∧ c.devicePath = some e ∧ i ≠ p) := by
  have hmask0 : maskOpenIn (S.take 0) T = T := by
    rw [List.take_zero]
    exact maskOpenIn_nil T
  rcases hs1 : update_connected_step1 okFn S T (List.replicate T.length none) 0 []
    with ⟨t1, temp1, n1, ns1⟩
  rcases hs2 : update_connected_step2 t1 0 temp1 n1 ns1 with ⟨temp2, n2, ns2⟩
  have hout : update_connected_controllers okFn S T = (temp2, ns2) := by
    simp only [update_connected_controllers, hs1, hs2]
  obtain ⟨hA1, hA2, hA3, hA4, hA5, hA6, hA7⟩ := step1_reorder okFn S T hwf huniq
    hnodup (fun e he => (hseteq e).mp he) S 0 (List.replicate T.length none) []
    (by simp) (by rw [hmask0]; simp) (by simp)
  rw [hmask0, hs1] at hA1 hA2 hA3 hA4 hA5 hA6 hA7
  have hA2' : ∀ (q j : Nat) (e : DeviceIdentity) (c : PSMoveController),
      S[q]? = some e → find_open_controller_index T e = some (j, c) →
      temp1[q]? = some (some (c.setPSMoveID q)) := by
    intro q j e c hq hf
    have h := hA2 q j e c hq hf
    simpa using h
  have hA4' : ∀ (q j : Nat) (e : DeviceIdentity) (c : PSMoveController) (i : Nat),
      S[q]? = some e → find_open_controller_index T e = some (j, c) →
      ns1.count (.controllerMoved i q) = (if i = j ∧ j ≠ q then 1 else 0) := by
    intro q j e c i hq hf
    have h := hA4 q j e c i hq hf
    simpa using h
  have hA6' : t1 = maskOpenIn S T := by
    have h : t1 = maskOpenIn (S.take (0 + S.length)) T := hA6
    rw [h]
    congr 1
    simp [List.take_length]
  have hA7' : n1 = S.length := by
    have h : n1 = 0 + S.length := hA7
    omega
  have ht1closed : ∀ (k : Nat) (d : PSMoveController),
      t1[k]? = some (some d) → d.isOpen = false := by
    intro k d hk
    rw [hA6'] at hk
    obtain ⟨hTk, hpF⟩ := maskOpenIn_entry_inv S T k d hk
    by_contra hopen
    rw [Bool.not_eq_false] at hopen
    obtain ⟨e, hdp⟩ := hbound k d hTk hopen
    have hin : e ∈ S := (hseteq e).mpr ⟨k, d, hTk, hopen, hdp⟩
    rw [show pathIn S (some d) = true by simp [pathIn, hopen, hdp, hin]] at hpF
    exact absurd hpF (by simp)
  obtain ⟨hB1, hB2⟩ := step2_no_stale t1 0 temp1 n1 ns1 ht1closed
  rw [hs2] at hB1 hB2
  have hB1' : ns2 = ns1 := hB1
  have hB2' : ∀ k, k < n1 → temp2[k]? = temp1[k]? := hB2
  rw [hout]
  refine ⟨?_, ?_, ?_⟩
  · intro j c hj hopen
    obtain ⟨e, he⟩ := hbound j c hj hopen
    have hin : e ∈ S := (hseteq e).mpr ⟨j, c, hj, hopen, he⟩
    obtain ⟨p, hp⟩ := List.mem_iff_getElem?.mp hin
    have hplt : p < S.length := by
      by_contra hge
      rw [List.getElem?_eq_none (by omega)] at hp
      exact absurd hp (by simp)
    have hfind : find_open_controller_index T e = some (j, c) :=
      find_unique T e j c huniq hj hopen he
    refine ⟨p, e, hp, he, ?_⟩
    show temp2[p]? = some (some (c.setPSMoveID p))
    rw [hB2' p (by omega)]
    exact hA2' p j e c hp hfind
  · intro i p e c hp hT hopen hpath
    have hfind : find_open_controller_index T e = some (i, c) :=
      find_unique T e i c huniq hT hopen hpath
    show ns2.count (.controllerMoved i p) = (if i = p then 0 else 1)
    rw [hB1', hA4' p i e c i hp hfind]
    by_cases hip : i = p
    · subst hip
      simp
    · simp [hip]
  · intro i p hmem
    have hmem' : Notification.controllerMoved i p ∈ ns2 := hmem
    rw [hB1'] at hmem'
    rcases hA5 _ hmem' with hx | ⟨q, j, e2, c, hq, hfindq, hxeq, hne⟩
    · exact absurd hx (by simp)
    · simp only [Nat.zero_add] at hxeq hne
      simp only [Notification.controllerMoved.injEq] at hxeq
      obtain ⟨hij, hpq⟩ := hxeq
      subst hij
      subst hpq
      obtain ⟨hT, hopen, hpath⟩ := find_open_controller_index_spec T e2 i c hfindq
      exact ⟨e2, c, hq, hT, hopen, hpath, hne⟩

/-- Open session fixture bound to device 10 in slot 0. -/
def c6SessionA : PSMoveController :=
  { tag := 0, psmove_id := 0, isOpen := true, devicePath := some 10
    pose := psmovePosef.zero, state := PSMoveState.zero }

/-- Open session fixture bound to device 20 in slot 1. -/
def c6SessionB : PSMoveController :=
  { tag := 1, psmove_id := 1, isOpen := true, devicePath := some 20
    pose := psmovePosef.zero, state := PSMoveState.zero }

/-- Decoding the two-entry fixture table. -/
theorem c6_table_decode :
    ∀ (j : Nat) (c : PSMoveController),
      ([some c6SessionA, some c6SessionB] :
        List (Option PSMoveController))[j]? = some (some c) →
      (j = 0 ∧ c = c6SessionA) ∨ (j = 1 ∧ c = c6SessionB) := by
  intro j c hj
  cases j with
  | zero =>
    left
    simp only [List.getElem?_cons_zero, Option.some.injEq] at hj
    exact ⟨rfl, hj.symm⟩
  | succ j =>
    cases j with
    | zero =>
      right
      simp only [List.getElem?_cons_succ, List.getElem?_cons_zero,
        Option.some.injEq] at hj
      exact ⟨rfl, hj.symm⟩
    | succ j =>
      exfalso
      simp at hj

/-- Witness for `c6_identity_stability_under_reordering`: swapping the two
enumerated devices keeps session A open, relocated to position 1, and
emits exactly one moved notification for it. -/
theorem c6_witness :
    (∃ (p : Nat) (e : DeviceIdentity),
      ([20, 10] : List DeviceIdentity)[p]? = some e ∧
      c6SessionA.devicePath = some e ∧
      (update_connected_controllers okAlways [20, 10]
        [some c6SessionA, some c6SessionB]).1[p]? =
        some (some (c6SessionA.setPSMoveID p))) ∧
    ((update_connected_controllers okAlways [20, 10]
        [some c6SessionA, some c6SessionB]).2).count
      (Notification.controllerMoved 0 1) = 1 := by
  have h := c6_identity_stability_under_reordering okAlways [20, 10]
    [some c6SessionA, some c6SessionB]
    (by
      intro j c hj
      rcases c6_table_decode j c hj with ⟨rfl, rfl⟩ | ⟨rfl, rfl⟩ <;> rfl)
    (by
      intro j2 k c2 d e2 h1 h2 _ _ hp1 hp2
      rcases c6_table_decode j2 c2 h1 with ⟨rfl, rfl⟩ | ⟨rfl, rfl⟩ <;>
        rcases c6_table_decode k d h2 with ⟨rfl, rfl⟩ | ⟨rfl, rfl⟩
      · rfl
      · exfalso
        have ha := Option.some.inj (show some (10 : Nat) = some e2 from hp1)
        have hb := Option.some.inj (show some (20 : Nat) = some e2 from hp2)
        omega
      · exfalso
        have ha := Option.some.inj (show some (20 : Nat) = some e2 from hp1)
        have hb := Option.some.inj (show some (10 : Nat) = some e2 from hp2)
        omega
      · rfl)
    (by
      intro j c hj _
      rcases c6_table_decode j c hj with ⟨rfl, rfl⟩ | ⟨rfl, rfl⟩
      · exact ⟨10, rfl⟩
      · exact ⟨20, rfl⟩)
    (by decide)
    (by
      intro e
      constructor
      · intro he
        rcases List.mem_cons.mp he with rfl | he2
        · exact ⟨1, c6SessionB, by simp, rfl, rfl⟩
        · rcases List.mem_cons.mp he2 with rfl | he3
          · exact ⟨0, c6SessionA, by simp, rfl, rfl⟩
          · exact absurd he3 (by simp)
      · rintro ⟨j, c, hj, _, hp⟩
        rcases c6_table_decode j c hj with ⟨_, rfl⟩ | ⟨_, rfl⟩
        · simp only [c6SessionA, Option.some.injEq] at hp
          subst hp
          simp
        · simp only [c6SessionB, Option.some.injEq] at hp
          subst hp
          simp)
  refine ⟨h.1 0 c6SessionA (by simp) rfl, ?_⟩
  have h2 := h.2.1 0 1 10 c6SessionA (by simp) (by simp) rfl rfl
  simpa using h2
